import Mathlib

/-!
# Shallow embedding of `indicators.py` (kalshi-market-data)

This file embeds the indicator computation engine of `src/indicators.py`
into Lean 4 and proves the specification claims about it.

Modelling conventions:

* A dataframe cell holds either a rational number or the missing marker
  (pandas `NaN`).  We model a cell as `Option ℚ`, with `none` playing the
  role of `NaN`.  `pd.to_numeric(..., errors="coerce")` maps any
  non-numeric entry to `NaN`; cells are modelled *post-coercion*, so a
  non-numeric or absent input entry enters the model as `none` and the
  coercion itself is the identity on cells.
* Float arithmetic on cells is NaN-propagating, which we reproduce with
  explicit `Option`-propagating operators.  The two places the source
  divides (`rel_spread` and the z-score) guard their denominators:
  `rel_spread` replaces a zero mid by `NaN` first, and in the z-score the
  numerator is provably zero whenever the rolling std is zero, so the
  float result there is `0.0/0.0 = NaN`; infinities never arise in any
  reachable computation, letting us model these divisions as `none` on a
  zero denominator.
* Standard deviations are real-valued (`Real.sqrt` of a rational
  variance), so the `z_p` and `vol_p` columns are `Option ℝ`.
* `sort_values([...], kind="mergesort")` is a stable sort; a stable sort
  for a total preorder is extensionally unique, so we model it by a
  stable insertion sort over the same comparison key
  (ticker, then numeric timestamp, missing values last).
-/

namespace Kalshi

/-- A dataframe cell: a numeric value or the pandas `NaN` marker. -/
abbrev Cell := Option ℚ

/-- `pd.to_numeric(series, errors="coerce")`: cells are modelled
post-coercion (non-numeric entries are already `none`), so the coercion is
the identity on cells. -/
def toNumeric (x : Cell) : Cell := x

/-- NaN-propagating addition of two cells. -/
def optAdd (a b : Cell) : Cell :=
  match a, b with
  | some x, some y => some (x + y)
  | _, _ => none

/-- NaN-propagating subtraction of two cells. -/
def optSub (a b : Cell) : Cell :=
  match a, b with
  | some x, some y => some (x - y)
  | _, _ => none

/-- NaN-propagating division of two cells.  Every use in this file has a
provably nonzero denominator whenever both operands are present (see the
header comment), so the float infinities of `x / 0.0` never arise. -/
def optDiv (a b : Cell) : Cell :=
  match a, b with
  | some x, some y => some (x / y)
  | _, _ => none

/-- `_normalize_price_to_prob`: if the numeric value exceeds 1.5 interpret
it as cents and divide by 100, otherwise keep it; `NaN` stays `NaN`
(`np.where(x > 1.5, x / 100.0, x)`, where `NaN > 1.5` is false). -/
def normalizePriceToProb (x : Cell) : Cell :=
  x.map (fun v => if 3/2 < v then v / 100 else v)

/-- `_has_book`: both bid and ask are present and strictly positive.
A comparison against `NaN` is false, so the result is boolean `false`
(not missing) whenever either side is missing. -/
def hasBook (bid ask : Cell) : Bool :=
  match bid, ask with
  | some b, some a => decide (0 < b) && decide (0 < a)
  | _, _ => false

/-- `_mid`: midpoint of the normalized bid/ask, masked to `NaN` where the
book does not exist (`mid.where(has, np.nan)`). -/
def mid (bid ask : Cell) : Cell :=
  let m := (optAdd (normalizePriceToProb bid) (normalizePriceToProb ask)).map
    (fun s => s / 2)
  if hasBook bid ask then m else none

/-- `_spread`: normalized ask minus normalized bid, masked to `NaN` where
the book does not exist. -/
def spreadCell (bid ask : Cell) : Cell :=
  let s := optSub (normalizePriceToProb ask) (normalizePriceToProb bid)
  if hasBook bid ask then s else none

/-- `mid.replace(0, np.nan)` inside `_rel_spread`. -/
def replaceZero (x : Cell) : Cell :=
  x.bind (fun v => if v = 0 then none else some v)

/-- `_rel_spread`: `spread / mid.replace(0, np.nan)`. -/
def relSpread (midc spreadc : Cell) : Cell :=
  optDiv spreadc (replaceZero midc)

/-- The implied probability of `_compute_group_indicators`:
`(mid_yes / denom).where(denom > 0, np.nan)` followed by
`.fillna(mid_yes)`, with `denom = mid_yes + mid_no`. -/
def pYes (midYes midNo : Cell) : Cell :=
  let denom := optAdd midYes midNo
  let ratio : Cell :=
    match denom with
    | some d => if 0 < d then optDiv midYes denom else none
    | none => none
  match ratio with
  | some r => some r
  | none => midYes

/-- `overround = (mid_yes + mid_no) - 1.0`. -/
def overroundCell (midYes midNo : Cell) : Cell :=
  (optAdd midYes midNo).map (fun s => s - 1)

/-- `tte_hours = (close_time - timestamp) / 3600.0` after numeric
coercion of both columns. -/
def tteHours (closeTime timestamp : Cell) : Cell :=
  (optSub (toNumeric closeTime) (toNumeric timestamp)).map (fun d => d / 3600)

/-- `near_bounds = (p < eps) | (p > 1.0 - eps)`: comparisons against
`NaN` are false, so a missing probability yields boolean `false`. -/
def nearBoundsCell (eps : ℚ) (p : Cell) : Bool :=
  match p with
  | some x => decide (x < eps) || decide (1 - eps < x)
  | none => false

/-- `is_unchanged = (p == p.shift(1))`: float equality, false when either
operand is `NaN`. -/
def eqCell (a b : Cell) : Bool :=
  match a, b with
  | some x, some y => decide (x = y)
  | _, _ => false

/-! ## Series helpers (rolling/temporal operators) -/

/-- Element of a series list, `NaN` out of range. -/
def getC (xs : List Cell) (i : ℕ) : Cell := xs.getD i none

/-- `series.diff()` at index `i`: `s[i] - s[i-1]`, `NaN` at index 0. -/
def diffAt (xs : List Cell) : ℕ → Cell
  | 0 => none
  | j + 1 => optSub (getC xs (j + 1)) (getC xs j)

/-- The whole `series.diff()` as a list. -/
def diffSeries (xs : List Cell) : List Cell :=
  (List.range xs.length).map (diffAt xs)

/-- `series.shift(lag)` at index `i`. -/
def shiftAt (xs : List Cell) (lag i : ℕ) : Cell :=
  if i < lag then none else getC xs (i - lag)

/-- Collect a list of cells into a list of values, `none` if any cell is
missing.  This is how `min_periods = window` behaves on a full window: the
statistic is `NaN` unless every observation in the window is present. -/
def allSome : List Cell → Option (List ℚ)
  | [] => some []
  | none :: _ => none
  | some x :: cs => (allSome cs).map (fun xs => x :: xs)

/-- The trailing window of `rolling(window, min_periods=window)` ending at
index `i`: the `w` observations at indices `i+1-w, …, i`, available only
when `i+1 ≥ w` and every observation in the window is present. -/
def winAt (xs : List Cell) (w i : ℕ) : Option (List ℚ) :=
  if i + 1 < w then none else allSome ((xs.drop (i + 1 - w)).take w)

/-- Mean of a list of rationals (`rolling(...).mean()` on a full window). -/
def listMean (vs : List ℚ) : ℚ := vs.sum / vs.length

/-- Sample variance with `ddof = 1` (the square of pandas
`rolling(...).std()`); undefined (`NaN`) on fewer than two observations. -/
def sampleVar (vs : List ℚ) : Option ℚ :=
  if vs.length ≤ 1 then none
  else some (((vs.map (fun x => (x - listMean vs) ^ 2)).sum) / ((vs.length : ℚ) - 1))

/-- `rolling(w, min_periods=w).mean()` at index `i`. -/
def rollMeanAt (xs : List Cell) (w i : ℕ) : Cell :=
  (winAt xs w i).map listMean

/-- The rolling sample variance at index `i` (square of the rolling std). -/
def rollVarAt (xs : List Cell) (w i : ℕ) : Option ℚ :=
  (winAt xs w i).bind sampleVar

/-- `rolling(w, min_periods=w).std()` at index `i`, as a real number.
The square root of an arbitrary rational is irrational, so this and the
definitions reaching it are `noncomputable`; the rational-valued part of
the pipeline (including `rollVarAt`, the std's square) stays computable,
and kernel reduction still evaluates these definitions on concrete
inputs in proofs. -/
noncomputable def rollStdAt (xs : List Cell) (w i : ℕ) : Option ℝ :=
  (rollVarAt xs w i).map (fun q => Real.sqrt (q : ℝ))

/-- `_zscore` at index `i`: `(x - rolling_mean) / rolling_std`.  When the
rolling std is zero the numerator `x - mean` is provably zero (`x` is the
last observation of its own constant window), so the float result is
`0.0/0.0 = NaN`, modelled as `none`. -/
noncomputable def zscoreAt (xs : List Cell) (w i : ℕ) : Option ℝ :=
  match getC xs i, rollMeanAt xs w i, rollVarAt xs w i with
  | some x, some m, some q =>
    if q = 0 then none else some (((x - m : ℚ) : ℝ) / Real.sqrt (q : ℝ))
  | _, _, _ => none

/-- Maximum of a list of rationals, `none` on the empty list. -/
def listMaxQ : List ℚ → Option ℚ
  | [] => none
  | h :: t => some (t.foldl max h)

/-- Minimum of a list of rationals, `none` on the empty list. -/
def listMinQ : List ℚ → Option ℚ
  | [] => none
  | h :: t => some (t.foldl min h)

/-- `rolling(w, min_periods=w).max()` at index `i`. -/
def rollMaxAt (xs : List Cell) (w i : ℕ) : Cell :=
  (winAt xs w i).bind listMaxQ

/-- `rolling(w, min_periods=w).min()` at index `i`. -/
def rollMinAt (xs : List Cell) (w i : ℕ) : Cell :=
  (winAt xs w i).bind listMinQ

/-- `_rolling_range` at index `i`: rolling max minus rolling min. -/
def rangeAt (xs : List Cell) (w i : ℕ) : Cell :=
  optSub (rollMaxAt xs w i) (rollMinAt xs w i)

/-- Smoothing factor of `ewm(span=span)`: `alpha = 2 / (span + 1)`. -/
def alphaOfSpan (span : ℕ) : ℚ := 2 / ((span : ℚ) + 1)

/-- One step of pandas `ewm(span, adjust=False).mean()` (`ignore_na=False`).
The state is `(weighted_avg, old_wt)`, `none` before the first observation.
Each step first decays `old_wt` by `1 - alpha`; an observation then updates
`weighted_avg = (old_wt * avg + alpha * x) / (old_wt + alpha)` and resets
`old_wt` to 1.  On gap-free data this is exactly
`avg' = (1-alpha) * avg + alpha * x`. -/
def ewmaStep (a : ℚ) (st : Option (ℚ × ℚ)) (x : Cell) : Option (ℚ × ℚ) :=
  match st, x with
  | none, none => none
  | none, some v => some (v, 1)
  | some (y, w), none => some (y, w * (1 - a))
  | some (y, w), some v =>
    let w2 := w * (1 - a)
    some ((w2 * y + a * v) / (w2 + a), 1)

/-- `ewm(span, adjust=False).mean()` at index `i`: the weighted average
after folding the update over the first `i+1` observations. -/
def ewmaAt (span : ℕ) (xs : List Cell) (i : ℕ) : Cell :=
  ((xs.take (i + 1)).foldl (ewmaStep (alphaOfSpan span)) none).map Prod.fst

/-! ## Rows, configuration and the per-ticker engine -/

/-- A snapshot record (input row).  The ticker is a string or missing;
every other field is a numeric cell (modelled post-coercion). -/
@[ext]
structure Row where
  ticker : Option String
  timestamp : Cell
  close_time : Cell
  yes_bid : Cell
  yes_ask : Cell
  no_bid : Cell
  no_ask : Cell
  volume : Cell
  open_interest : Cell
  deriving DecidableEq, Repr

/-- The all-missing row (used as an out-of-range default only). -/
def defaultRow : Row :=
  ⟨none, none, none, none, none, none, none, none, none⟩

instance : Inhabited Row := ⟨defaultRow⟩

/-- `IndicatorConfig` of `indicators.py`. -/
structure IndicatorConfig where
  z_window : ℕ := 60
  vol_window : ℕ := 60
  range_window : ℕ := 60
  momentum_lag : ℕ := 30
  ema_fast : ℕ := 10
  ema_slow : ℕ := 30
  near_bounds_eps : ℚ := 5/100
  deriving DecidableEq, Repr

/-- The default configuration. -/
def defaultConfig : IndicatorConfig := {}

/-- The `p_yes` column of a group: a rowwise function of the four quote
columns (mid of each side fused by `pYes`). -/
def pSeries (g : List Row) : List Cell :=
  g.map (fun r => pYes (mid r.yes_bid r.yes_ask) (mid r.no_bid r.no_ask))

/-- The `volume` column after `g.get("volume", np.nan)` and coercion: the
row's cell when the column exists, an all-`NaN` series otherwise. -/
def volSeries (hasVol : Bool) (g : List Row) : List Cell :=
  g.map (fun r => if hasVol then toNumeric r.volume else none)

/-- The `open_interest` column, as for `volSeries`. -/
def oiSeries (hasOI : Bool) (g : List Row) : List Cell :=
  g.map (fun r => if hasOI then toNumeric r.open_interest else none)

/-- A feature record: the input row plus every derived column of
`_compute_group_indicators`.  `z_p` and `vol_p` are real-valued (they
involve a square root); all other numeric columns are rational cells. -/
@[ext]
structure FeatureRow where
  base : Row
  has_yes_book : Bool
  has_no_book : Bool
  mid_yes : Cell
  mid_no : Cell
  spread_yes : Cell
  spread_no : Cell
  rel_spread_yes : Cell
  p_yes : Cell
  overround : Cell
  tte_hours : Cell
  volume : Cell
  open_interest : Cell
  d_volume : Cell
  d_open_interest : Cell
  delta_p : Cell
  z_p : Option ℝ
  vol_p : Option ℝ
  range_p : Cell
  momentum_p : Cell
  ema_fast : Cell
  ema_slow : Cell
  ema_diff : Cell
  accel_p : Cell
  near_bounds : Bool
  is_unchanged : Bool

/-- Row `i` of `_compute_group_indicators` applied to a (sorted) ticker
group `g`.  `hasVol`/`hasOI` record whether the optional `volume` and
`open_interest` columns exist in the frame. -/
noncomputable def featureRowAt (cfg : IndicatorConfig) (hasVol hasOI : Bool)
    (g : List Row) (i : ℕ) : FeatureRow :=
  let r := g.getD i defaultRow
  let p := pSeries g
  let vs := volSeries hasVol g
  let os := oiSeries hasOI g
  let d := diffSeries p
  let midY := mid r.yes_bid r.yes_ask
  let midN := mid r.no_bid r.no_ask
  { base := r
    has_yes_book := hasBook r.yes_bid r.yes_ask
    has_no_book := hasBook r.no_bid r.no_ask
    mid_yes := midY
    mid_no := midN
    spread_yes := spreadCell r.yes_bid r.yes_ask
    spread_no := spreadCell r.no_bid r.no_ask
    rel_spread_yes := relSpread midY (spreadCell r.yes_bid r.yes_ask)
    p_yes := pYes midY midN
    overround := overroundCell midY midN
    tte_hours := tteHours r.close_time r.timestamp
    volume := getC vs i
    open_interest := getC os i
    d_volume := diffAt vs i
    d_open_interest := diffAt os i
    delta_p := diffAt p i
    z_p := zscoreAt p cfg.z_window i
    vol_p := rollStdAt d cfg.vol_window i
    range_p := rangeAt p cfg.range_window i
    momentum_p := optSub (getC p i) (shiftAt p cfg.momentum_lag i)
    ema_fast := ewmaAt cfg.ema_fast p i
    ema_slow := ewmaAt cfg.ema_slow p i
    ema_diff := optSub (ewmaAt cfg.ema_fast p i) (ewmaAt cfg.ema_slow p i)
    accel_p := diffAt d i
    near_bounds := nearBoundsCell cfg.near_bounds_eps (getC p i)
    is_unchanged := eqCell (getC p i) (shiftAt p 1 i) }

/-- `_compute_group_indicators` on a whole group: one feature row per
input row. -/
noncomputable def computeGroup (cfg : IndicatorConfig) (hasVol hasOI : Bool)
    (g : List Row) : List FeatureRow :=
  (List.range g.length).map (featureRowAt cfg hasVol hasOI g)

/-! ## The group orchestrator (`add_indicators`) -/

/-- Missing-last comparison on optional values (pandas
`na_position="last"`). -/
def oLe {α : Type} [LinearOrder α] : Option α → Option α → Bool
  | some a, some b => decide (a ≤ b)
  | some _, none => true
  | none, some _ => false
  | none, none => true

/-- Strict missing-last comparison on optional values. -/
def oLt {α : Type} [LinearOrder α] : Option α → Option α → Bool
  | some a, some b => decide (a < b)
  | some _, none => true
  | none, some _ => false
  | none, none => false

/-- The sort key of `sort_values(["ticker", "timestamp"])`: ticker first,
then the numeric timestamp, missing values last in each component. -/
def rowLe (r s : Row) : Bool :=
  oLt r.ticker s.ticker ||
    (decide (r.ticker = s.ticker) && oLe (toNumeric r.timestamp) (toNumeric s.timestamp))

/-- Insert into a sorted list, before the first element not strictly
smaller; for a total preorder this is the stable insertion. -/
def sInsert {α : Type} (le : α → α → Bool) (x : α) : List α → List α
  | [] => [x]
  | y :: ys => if le x y then x :: y :: ys else y :: sInsert le x ys

/-- Stable insertion sort.  `sort_values(..., kind="mergesort")` is a
stable sort, and a stable sort for a total preorder is extensionally
unique, so this models it faithfully. -/
def stableSort {α : Type} (le : α → α → Bool) : List α → List α
  | [] => []
  | x :: xs => sInsert le x (stableSort le xs)

/-- Sortedness with respect to a boolean comparison. -/
def SortedB {α : Type} (le : α → α → Bool) (l : List α) : Prop :=
  l.Pairwise (fun a b => le a b = true)

/-- The distinct present tickers of a row list.  On the ticker-sorted
frame this model applies it to, equal tickers are contiguous, so this is
both the first-occurrence order and pandas' sorted group-key order.
`groupby("ticker")` drops missing keys. -/
def tickersOf (rows : List Row) : List String :=
  (rows.filterMap Row.ticker).dedup

/-- The rows of one ticker group, in frame order. -/
def groupRows (rows : List Row) (t : String) : List Row :=
  rows.filter (fun r => r.ticker = some t)

/-- The required input columns of `add_indicators`. -/
def requiredCols : List String :=
  ["ticker", "timestamp", "close_time", "yes_bid", "yes_ask", "no_bid", "no_ask"]

/-- A dataframe: the set of present column names, and the rows.  A row
field is meaningful only when its column is present; the code reads the
seven required columns only after validating their presence, and reads
`volume`/`open_interest` through `.get` with an all-`NaN` default. -/
structure DataFrame where
  cols : List String
  rows : List Row

/-- `add_indicators`: validate the required columns (raising a
`ValueError` enumerating the missing ones), stable-sort by
(ticker, numeric timestamp), and apply `_compute_group_indicators` to
each ticker group, concatenating the results in group order. -/
noncomputable def addIndicators (cfg : IndicatorConfig) (df : DataFrame) :
    Except (List String) (List FeatureRow) :=
  let missing := requiredCols.filter (fun c => ! df.cols.contains c)
  if missing.isEmpty then
    let sorted := stableSort rowLe df.rows
    let hasVol := df.cols.contains "volume"
    let hasOI := df.cols.contains "open_interest"
    Except.ok
      (((tickersOf sorted).map
        (fun t => computeGroup cfg hasVol hasOI (groupRows sorted t))).flatten)
  else
    Except.error missing

/-! ## Auxiliary definitions used by the claims -/

/-- Modelled from the spec's words (§4.4): the textbook EMA recurrence,
seeded with the first value and updated as
`ema[i] = alpha * v[i] + (1 - alpha) * ema[i-1]`.  Used to compare the
pipeline's `ewm`-based EMA against the specified recurrence. -/
def emaSpec (a : ℚ) (v : ℕ → ℚ) : ℕ → ℚ
  | 0 => v 0
  | i + 1 => a * v (i + 1) + (1 - a) * emaSpec a v i

/-- The tuple of derived (engine-owned) columns of a feature row,
excluding the passed-through input fields. -/
@[ext]
structure Derived where
  has_yes_book : Bool
  has_no_book : Bool
  mid_yes : Cell
  mid_no : Cell
  spread_yes : Cell
  spread_no : Cell
  rel_spread_yes : Cell
  p_yes : Cell
  overround : Cell
  tte_hours : Cell
  volume : Cell
  open_interest : Cell
  d_volume : Cell
  d_open_interest : Cell
  delta_p : Cell
  z_p : Option ℝ
  vol_p : Option ℝ
  range_p : Cell
  momentum_p : Cell
  ema_fast : Cell
  ema_slow : Cell
  ema_diff : Cell
  accel_p : Cell
  near_bounds : Bool
  is_unchanged : Bool

/-- Project the derived columns out of a feature row. -/
def derivedOf (fr : FeatureRow) : Derived :=
  { has_yes_book := fr.has_yes_book
    has_no_book := fr.has_no_book
    mid_yes := fr.mid_yes
    mid_no := fr.mid_no
    spread_yes := fr.spread_yes
    spread_no := fr.spread_no
    rel_spread_yes := fr.rel_spread_yes
    p_yes := fr.p_yes
    overround := fr.overround
    tte_hours := fr.tte_hours
    volume := fr.volume
    open_interest := fr.open_interest
    d_volume := fr.d_volume
    d_open_interest := fr.d_open_interest
    delta_p := fr.delta_p
    z_p := fr.z_p
    vol_p := fr.vol_p
    range_p := fr.range_p
    momentum_p := fr.momentum_p
    ema_fast := fr.ema_fast
    ema_slow := fr.ema_slow
    ema_diff := fr.ema_diff
    accel_p := fr.accel_p
    near_bounds := fr.near_bounds
    is_unchanged := fr.is_unchanged }

/-- The input-schema row carried by an output row of `add_indicators`: the
frame's `timestamp` column was replaced by its numeric coercion and the
`volume`/`open_interest` columns by their coerced (possibly all-`NaN`)
versions; all other input columns are untouched. -/
def rowOfFeature (fr : FeatureRow) : Row :=
  { fr.base with
    timestamp := toNumeric fr.base.timestamp
    volume := fr.volume
    open_interest := fr.open_interest }

/-- The derived column names appended by the engine. -/
def derivedColNames : List String :=
  ["has_yes_book", "has_no_book", "mid_yes", "mid_no", "spread_yes",
   "spread_no", "rel_spread_yes", "p_yes", "overround", "tte_hours",
   "volume", "open_interest", "d_volume", "d_open_interest", "delta_p",
   "z_p", "vol_p", "range_p", "momentum_p", "ema_fast", "ema_slow",
   "ema_diff", "accel_p", "near_bounds", "is_unchanged"]

/-- The output of `add_indicators` viewed again as an input dataframe
(for the idempotence claim): the original columns plus the derived ones,
with the output rows projected back onto the input schema. -/
def outputFrame (df : DataFrame) (out : List FeatureRow) : DataFrame :=
  ⟨df.cols ++ derivedColNames, out.map rowOfFeature⟩

/-- The output rows belonging to one ticker. -/
def groupOut (out : List FeatureRow) (t : String) : List FeatureRow :=
  out.filter (fun fr => fr.base.ticker = some t)

/-- The effect of one `add_indicators` run on the input-schema columns of
a row: `timestamp`, `volume` and `open_interest` are replaced by their
coerced versions (all-`NaN` when the optional column was absent), the
rest is untouched. -/
def coerceRow (hasVol hasOI : Bool) (r : Row) : Row :=
  { r with
    timestamp := toNumeric r.timestamp
    volume := if hasVol then toNumeric r.volume else none
    open_interest := if hasOI then toNumeric r.open_interest else none }

/-- Convenience constructor for concrete snapshot rows. -/
def mkRow (t : Option String) (ts yb ya nb na : Cell) : Row :=
  { ticker := t, timestamp := ts, close_time := none, yes_bid := yb,
    yes_ask := ya, no_bid := nb, no_ask := na, volume := none,
    open_interest := none }

/-- A dataframe carrying exactly the required columns. -/
def mkFrame (rows : List Row) : DataFrame :=
  ⟨requiredCols, rows⟩

/-- The output table of a successful `add_indicators` run (the empty
table on a validation failure); used to state concrete instances. -/
noncomputable def runOk (cfg : IndicatorConfig) (df : DataFrame) : List FeatureRow :=
  match addIndicators cfg df with
  | Except.ok out => out
  | Except.error _ => []

/-! # Theorems

## Basic lemmas on cells and series -/

theorem getC_eq_some_iff {xs : List Cell} {j : ℕ} {q : ℚ} :
    getC xs j = some q ↔ xs[j]? = some (some q) := by
  unfold getC
  rw [List.getD_eq_getElem?_getD]
  cases h : xs[j]? with
  | none => simp
  | some c => simp

theorem getC_map {β : Type} (g : List β) (f : β → Cell) {i : ℕ}
    (hi : i < g.length) :
    getC (g.map f) i = f g[i] := by
  unfold getC
  rw [List.getD_eq_getElem?_getD, List.getElem?_map,
    List.getElem?_eq_getElem hi]
  rfl

theorem getC_range_map (n : ℕ) (f : ℕ → Cell) {i : ℕ} (hi : i < n) :
    getC ((List.range n).map f) i = f i := by
  unfold getC
  rw [List.getD_eq_getElem?_getD, List.getElem?_map, List.getElem?_range hi]
  rfl

theorem pSeries_length (g : List Row) : (pSeries g).length = g.length := by
  simp [pSeries]

theorem getC_pSeries (g : List Row) {i : ℕ} (hi : i < g.length) :
    getC (pSeries g) i =
      pYes (mid g[i].yes_bid g[i].yes_ask) (mid g[i].no_bid g[i].no_ask) := by
  unfold pSeries
  rw [getC_map _ _ hi]

theorem getD_eq_getElem {g : List Row} {i : ℕ} (hi : i < g.length) :
    g.getD i defaultRow = g[i] := by
  rw [List.getD_eq_getElem?_getD, List.getElem?_eq_getElem hi]
  rfl

theorem allSome_eq_none_of_mem {l : List Cell} (h : none ∈ l) :
    allSome l = none := by
  induction l with
  | nil => simp at h
  | cons c cs ih =>
    rcases List.mem_cons.mp h with h1 | h2
    · rw [← h1]; rfl
    · cases c with
      | none => rfl
      | some x => show ((allSome cs).map _) = none; rw [ih h2]; rfl

theorem allSome_map_some {β : Type} (l : List β) (f : β → ℚ) :
    allSome (l.map (fun x => some (f x))) = some (l.map f) := by
  induction l with
  | nil => rfl
  | cons b bs ih =>
    show ((allSome (bs.map (fun x => some (f x)))).map _) = _
    rw [ih]
    rfl

/-- The window slice of `winAt` depends only on the first `i+1` entries. -/
theorem winAt_take (xs : List Cell) (w i : ℕ) :
    winAt xs w i = winAt (xs.take (i + 1)) w i := by
  unfold winAt
  by_cases h : i + 1 < w
  · simp [h]
  · have hw : w ≤ i + 1 := Nat.le_of_not_lt h
    simp only [h, if_false]
    rw [List.drop_take]
    have hww : i + 1 - (i + 1 - w) = w := by omega
    rw [hww, List.take_take, min_self]

theorem diffAt_congr {xs ys : List Cell} {i : ℕ}
    (h : ∀ j, j ≤ i → getC xs j = getC ys j) :
    diffAt xs i = diffAt ys i := by
  cases i with
  | zero => rfl
  | succ j =>
    show optSub (getC xs (j + 1)) (getC xs j) =
      optSub (getC ys (j + 1)) (getC ys j)
    rw [h (j + 1) (le_refl _), h j (Nat.le_succ j)]

/-! ## Projection lemmas for `featureRowAt` -/

theorem frAt_base (cfg : IndicatorConfig) (hv ho : Bool) (g : List Row) (i : ℕ) :
    (featureRowAt cfg hv ho g i).base = g.getD i defaultRow := rfl

theorem frAt_mid_yes (cfg : IndicatorConfig) (hv ho : Bool) (g : List Row) (i : ℕ) :
    (featureRowAt cfg hv ho g i).mid_yes =
      mid (g.getD i defaultRow).yes_bid (g.getD i defaultRow).yes_ask := rfl

theorem frAt_mid_no (cfg : IndicatorConfig) (hv ho : Bool) (g : List Row) (i : ℕ) :
    (featureRowAt cfg hv ho g i).mid_no =
      mid (g.getD i defaultRow).no_bid (g.getD i defaultRow).no_ask := rfl

theorem frAt_has_yes_book (cfg : IndicatorConfig) (hv ho : Bool) (g : List Row) (i : ℕ) :
    (featureRowAt cfg hv ho g i).has_yes_book =
      hasBook (g.getD i defaultRow).yes_bid (g.getD i defaultRow).yes_ask := rfl

theorem frAt_spread_yes (cfg : IndicatorConfig) (hv ho : Bool) (g : List Row) (i : ℕ) :
    (featureRowAt cfg hv ho g i).spread_yes =
      spreadCell (g.getD i defaultRow).yes_bid (g.getD i defaultRow).yes_ask := rfl

theorem frAt_rel_spread_yes (cfg : IndicatorConfig) (hv ho : Bool) (g : List Row) (i : ℕ) :
    (featureRowAt cfg hv ho g i).rel_spread_yes =
      relSpread (mid (g.getD i defaultRow).yes_bid (g.getD i defaultRow).yes_ask)
        (spreadCell (g.getD i defaultRow).yes_bid (g.getD i defaultRow).yes_ask) := rfl

theorem frAt_overround (cfg : IndicatorConfig) (hv ho : Bool) (g : List Row) (i : ℕ) :
    (featureRowAt cfg hv ho g i).overround =
      overroundCell (mid (g.getD i defaultRow).yes_bid (g.getD i defaultRow).yes_ask)
        (mid (g.getD i defaultRow).no_bid (g.getD i defaultRow).no_ask) := rfl

theorem frAt_tte_hours (cfg : IndicatorConfig) (hv ho : Bool) (g : List Row) (i : ℕ) :
    (featureRowAt cfg hv ho g i).tte_hours =
      tteHours (g.getD i defaultRow).close_time (g.getD i defaultRow).timestamp := rfl

theorem frAt_volume (cfg : IndicatorConfig) (hv ho : Bool) (g : List Row) (i : ℕ) :
    (featureRowAt cfg hv ho g i).volume = getC (volSeries hv g) i := rfl

theorem frAt_d_volume (cfg : IndicatorConfig) (hv ho : Bool) (g : List Row) (i : ℕ) :
    (featureRowAt cfg hv ho g i).d_volume = diffAt (volSeries hv g) i := rfl

theorem frAt_has_no_book (cfg : IndicatorConfig) (hv ho : Bool) (g : List Row) (i : ℕ) :
    (featureRowAt cfg hv ho g i).has_no_book =
      hasBook (g.getD i defaultRow).no_bid (g.getD i defaultRow).no_ask := rfl

theorem frAt_spread_no (cfg : IndicatorConfig) (hv ho : Bool) (g : List Row) (i : ℕ) :
    (featureRowAt cfg hv ho g i).spread_no =
      spreadCell (g.getD i defaultRow).no_bid (g.getD i defaultRow).no_ask := rfl

theorem frAt_open_interest (cfg : IndicatorConfig) (hv ho : Bool) (g : List Row) (i : ℕ) :
    (featureRowAt cfg hv ho g i).open_interest = getC (oiSeries ho g) i := rfl

theorem frAt_d_open_interest (cfg : IndicatorConfig) (hv ho : Bool) (g : List Row) (i : ℕ) :
    (featureRowAt cfg hv ho g i).d_open_interest = diffAt (oiSeries ho g) i := rfl

theorem frAt_p_yes (cfg : IndicatorConfig) (hv ho : Bool) (g : List Row) (i : ℕ) :
    (featureRowAt cfg hv ho g i).p_yes =
      pYes (mid (g.getD i defaultRow).yes_bid (g.getD i defaultRow).yes_ask)
        (mid (g.getD i defaultRow).no_bid (g.getD i defaultRow).no_ask) := rfl

theorem frAt_z_p (cfg : IndicatorConfig) (hv ho : Bool) (g : List Row) (i : ℕ) :
    (featureRowAt cfg hv ho g i).z_p = zscoreAt (pSeries g) cfg.z_window i := rfl

theorem frAt_vol_p (cfg : IndicatorConfig) (hv ho : Bool) (g : List Row) (i : ℕ) :
    (featureRowAt cfg hv ho g i).vol_p =
      rollStdAt (diffSeries (pSeries g)) cfg.vol_window i := rfl

theorem frAt_range_p (cfg : IndicatorConfig) (hv ho : Bool) (g : List Row) (i : ℕ) :
    (featureRowAt cfg hv ho g i).range_p =
      rangeAt (pSeries g) cfg.range_window i := rfl

theorem frAt_delta_p (cfg : IndicatorConfig) (hv ho : Bool) (g : List Row) (i : ℕ) :
    (featureRowAt cfg hv ho g i).delta_p = diffAt (pSeries g) i := rfl

theorem frAt_momentum_p (cfg : IndicatorConfig) (hv ho : Bool) (g : List Row) (i : ℕ) :
    (featureRowAt cfg hv ho g i).momentum_p =
      optSub (getC (pSeries g) i) (shiftAt (pSeries g) cfg.momentum_lag i) := rfl

theorem frAt_ema_fast (cfg : IndicatorConfig) (hv ho : Bool) (g : List Row) (i : ℕ) :
    (featureRowAt cfg hv ho g i).ema_fast = ewmaAt cfg.ema_fast (pSeries g) i := rfl

theorem frAt_ema_slow (cfg : IndicatorConfig) (hv ho : Bool) (g : List Row) (i : ℕ) :
    (featureRowAt cfg hv ho g i).ema_slow = ewmaAt cfg.ema_slow (pSeries g) i := rfl

theorem frAt_ema_diff (cfg : IndicatorConfig) (hv ho : Bool) (g : List Row) (i : ℕ) :
    (featureRowAt cfg hv ho g i).ema_diff =
      optSub (ewmaAt cfg.ema_fast (pSeries g) i)
        (ewmaAt cfg.ema_slow (pSeries g) i) := rfl

theorem frAt_accel_p (cfg : IndicatorConfig) (hv ho : Bool) (g : List Row) (i : ℕ) :
    (featureRowAt cfg hv ho g i).accel_p =
      diffAt (diffSeries (pSeries g)) i := rfl

theorem frAt_near_bounds (cfg : IndicatorConfig) (hv ho : Bool) (g : List Row) (i : ℕ) :
    (featureRowAt cfg hv ho g i).near_bounds =
      nearBoundsCell cfg.near_bounds_eps (getC (pSeries g) i) := rfl

theorem frAt_is_unchanged (cfg : IndicatorConfig) (hv ho : Bool) (g : List Row) (i : ℕ) :
    (featureRowAt cfg hv ho g i).is_unchanged =
      eqCell (getC (pSeries g) i) (shiftAt (pSeries g) 1 i) := rfl

/-! ## C1: the probability estimate -/

theorem pYes_spec (my mn : Cell) :
    (pYes my mn = none ↔ my = none) ∧
    (∀ a b : ℚ, my = some a → mn = some b → 0 < a + b →
      pYes my mn = some (a / (a + b))) ∧
    (∀ a b : ℚ, my = some a → mn = some b → a + b ≤ 0 → pYes my mn = my) ∧
    ((my = none ∨ mn = none) → pYes my mn = my) := by
  cases my with
  | none =>
    refine ⟨by cases mn <;> simp [pYes, optAdd], ?_, ?_, ?_⟩
    · intro a b ha; exact absurd ha (by simp)
    · intro a b ha; exact absurd ha (by simp)
    · intro h; cases mn <;> simp [pYes, optAdd]
  | some a =>
    cases mn with
    | none =>
      refine ⟨by simp [pYes, optAdd], ?_, ?_, ?_⟩
      · intro a' b' ha hb; exact absurd hb (by simp)
      · intro a' b' ha hb; exact absurd hb (by simp)
      · intro h; simp [pYes, optAdd]
    | some b =>
      by_cases hpos : 0 < a + b
      · have he : pYes (some a) (some b) = some (a / (a + b)) := by
          simp [pYes, optAdd, optDiv, hpos]
        refine ⟨by rw [he]; simp, ?_, ?_, ?_⟩
        · intro a' b' ha hb hp
          cases ha; cases hb; exact he
        · intro a' b' ha hb hle
          cases ha; cases hb; exact absurd hpos (not_lt.mpr hle)
        · rintro (h | h) <;> exact absurd h (by simp)
      · have he : pYes (some a) (some b) = some a := by
          simp [pYes, optAdd, optDiv, hpos]
        refine ⟨by rw [he], ?_, ?_, ?_⟩
        · intro a' b' ha hb hp
          cases ha; cases hb; exact absurd hp hpos
        · intro a' b' ha hb hle
          cases ha; cases hb; exact he
        · rintro (h | h) <;> exact absurd h (by simp)

/-- **C1.** For every row of a ticker partition, `p_yes` equals
`mid_yes / (mid_yes + mid_no)` whenever the denominator is positive;
whenever the denominator is non-positive or undefined (a missing mid),
`p_yes` falls back to `mid_yes` directly; and `p_yes` is missing exactly
when that fallback `mid_yes` is missing.  (The concrete example values
of the claim are checked in the witness.) -/
theorem claim_C1 (cfg : IndicatorConfig) (hv ho : Bool) (g : List Row)
    (i : ℕ) (_hi : i < g.length) :
    ((featureRowAt cfg hv ho g i).p_yes = none ↔
      (featureRowAt cfg hv ho g i).mid_yes = none) ∧
    (∀ a b : ℚ, (featureRowAt cfg hv ho g i).mid_yes = some a →
      (featureRowAt cfg hv ho g i).mid_no = some b → 0 < a + b →
      (featureRowAt cfg hv ho g i).p_yes = some (a / (a + b))) ∧
    (∀ a b : ℚ, (featureRowAt cfg hv ho g i).mid_yes = some a →
      (featureRowAt cfg hv ho g i).mid_no = some b → a + b ≤ 0 →
      (featureRowAt cfg hv ho g i).p_yes = (featureRowAt cfg hv ho g i).mid_yes) ∧
    (((featureRowAt cfg hv ho g i).mid_yes = none ∨
      (featureRowAt cfg hv ho g i).mid_no = none) →
      (featureRowAt cfg hv ho g i).p_yes = (featureRowAt cfg hv ho g i).mid_yes) := by
  rw [frAt_p_yes, frAt_mid_yes, frAt_mid_no]
  exact pYes_spec _ _

/-- Witness for C1: with cents quotes 55/65 and 37/47 the mids are 0.6
and 0.42 and `p_yes = 0.6 / 1.02 = 10/17`; with the NO book missing,
`p_yes` falls back to `mid_yes = 0.6`. -/
theorem claim_C1_witness :
    (featureRowAt defaultConfig false false
        [mkRow (some "A") (some 0) (some 55) (some 65) (some 37) (some 47)] 0).p_yes =
      some ((3/5) / (3/5 + 21/50)) ∧
    ((3/5 : ℚ) / (3/5 + 21/50) = 10/17) ∧
    (featureRowAt defaultConfig false false
        [mkRow (some "A") (some 0) (some 55) (some 65) none none] 0).p_yes =
      some (3/5) := by
  have hmy : (featureRowAt defaultConfig false false
      [mkRow (some "A") (some 0) (some 55) (some 65) (some 37) (some 47)] 0).mid_yes =
      some (3/5) := by
    rw [frAt_mid_yes]
    norm_num [mkRow, mid, hasBook, normalizePriceToProb, optAdd]
  have hmn : (featureRowAt defaultConfig false false
      [mkRow (some "A") (some 0) (some 55) (some 65) (some 37) (some 47)] 0).mid_no =
      some (21/50) := by
    rw [frAt_mid_no]
    norm_num [mkRow, mid, hasBook, normalizePriceToProb, optAdd]
  have hmy2 : (featureRowAt defaultConfig false false
      [mkRow (some "A") (some 0) (some 55) (some 65) none none] 0).mid_yes =
      some (3/5) := by
    rw [frAt_mid_yes]
    norm_num [mkRow, mid, hasBook, normalizePriceToProb, optAdd]
  refine ⟨?_, by norm_num, ?_⟩
  · exact (claim_C1 defaultConfig false false _ 0 (by decide)).2.1 (3/5) (21/50)
      hmy hmn (by norm_num)
  · have h := (claim_C1 defaultConfig false false
      [mkRow (some "A") (some 0) (some 55) (some 65) none none] 0
      (by decide)).2.2.2 (Or.inr rfl)
    rw [h, hmy2]

/-! ## C4: book existence, normalization and the midpoint -/

/-- **C4.** `mid(bid, ask)` is missing unless both quotes are numeric and
strictly positive (`has_book`); where the book exists it is the average
of the normalized quotes, where normalization divides by 100 exactly when
the value exceeds 1.5 (1.5 itself is kept) and a non-numeric value is
missing; and `mid(0, 60)` is missing while `mid(40, 60) = 0.50`. -/
theorem claim_C4 :
    (∀ bid ask : Cell, hasBook bid ask = false → mid bid ask = none) ∧
    (∀ bid ask : Cell, hasBook bid ask = true ↔
      ∃ b a : ℚ, bid = some b ∧ ask = some a ∧ 0 < b ∧ 0 < a) ∧
    (∀ b a : ℚ, 0 < b → 0 < a →
      mid (some b) (some a) =
        some (((if 3/2 < b then b / 100 else b) +
          (if 3/2 < a then a / 100 else a)) / 2)) ∧
    (∀ v : ℚ, normalizePriceToProb (some v) =
      some (if 3/2 < v then v / 100 else v)) ∧
    (normalizePriceToProb (some (3/2)) = some (3/2)) ∧
    (normalizePriceToProb none = none) ∧
    (mid (some 0) (some 60) = none) ∧
    (mid (some 40) (some 60) = some (1/2)) := by
  refine ⟨?_, ?_, ?_, ?_, by norm_num [normalizePriceToProb], rfl,
    by norm_num [mid, hasBook],
    by norm_num [mid, hasBook, normalizePriceToProb, optAdd]⟩
  · intro bid ask h
    simp [mid, h]
  · intro bid ask
    cases bid with
    | none => simp [hasBook]
    | some b =>
      cases ask with
      | none => simp [hasBook]
      | some a =>
        simp only [hasBook, Bool.and_eq_true, decide_eq_true_eq]
        constructor
        · rintro ⟨hb, ha⟩; exact ⟨b, a, rfl, rfl, hb, ha⟩
        · rintro ⟨b', a', hb', ha', h1, h2⟩
          cases hb'; cases ha'; exact ⟨h1, h2⟩
  · intro b a hb ha
    have hbk : hasBook (some b) (some a) = true := by
      simp [hasBook, hb, ha]
    simp [mid, hbk, normalizePriceToProb, optAdd]
  · intro v; rfl

/-- Witness for C4, applying the gating and averaging conjuncts at
concrete quotes. -/
theorem claim_C4_witness :
    hasBook (some 0) (some 60) = false ∧
    mid (some 0) (some 60) = none ∧
    mid (some 40) (some 60) =
      some (((if (3:ℚ)/2 < 40 then (40:ℚ) / 100 else 40) +
        (if (3:ℚ)/2 < 60 then (60:ℚ) / 100 else 60)) / 2) := by
  have hb : hasBook (some 0) (some 60) = false := by
    simp [hasBook]
  exact ⟨hb, claim_C4.1 _ _ hb,
    claim_C4.2.2.1 40 60 (by norm_num) (by norm_num)⟩

/-! ## C10: zero rolling standard deviation makes the z-score missing -/

theorem listMean_replicate {w : ℕ} (hw : w ≠ 0) (c : ℚ) :
    listMean (List.replicate w c) = c := by
  unfold listMean
  rw [List.sum_replicate, List.length_replicate, nsmul_eq_mul]
  have : (w : ℚ) ≠ 0 := Nat.cast_ne_zero.mpr hw
  field_simp

theorem sampleVar_replicate (w : ℕ) (c : ℚ) :
    sampleVar (List.replicate w c) = if w ≤ 1 then none else some 0 := by
  unfold sampleVar
  rw [List.length_replicate]
  by_cases h : w ≤ 1
  · simp [h]
  · have hw : w ≠ 0 := by omega
    rw [if_neg h, if_neg h, listMean_replicate hw]
    have hmap : (List.replicate w c).map (fun x => (x - c) ^ 2) =
        List.replicate w 0 := by
      rw [List.map_replicate]
      congr 1
      ring
    rw [hmap, List.sum_replicate]
    simp

/-- **C10.** When the trailing `z_window` observations of the probability
series are all equal (so the rolling standard deviation is zero — or,
for a window of one observation, undefined), the rolling z-score is
missing: `(p - mean) / std` never produces a number there.  The rolling
standard deviation itself is `0`, not missing, for windows of at least
two observations. -/
theorem claim_C10 (cfg : IndicatorConfig) (hv ho : Bool) (g : List Row)
    (i : ℕ) (c : ℚ)
    (hwin : winAt (pSeries g) cfg.z_window i =
      some (List.replicate cfg.z_window c)) :
    (featureRowAt cfg hv ho g i).z_p = none ∧
    (2 ≤ cfg.z_window →
      rollStdAt (pSeries g) cfg.z_window i = some 0) := by
  have hvar : rollVarAt (pSeries g) cfg.z_window i =
      if cfg.z_window ≤ 1 then none else some 0 := by
    unfold rollVarAt
    rw [hwin]
    exact sampleVar_replicate _ _
  constructor
  · rw [frAt_z_p]
    unfold zscoreAt
    by_cases h1 : cfg.z_window ≤ 1
    · rw [if_pos h1] at hvar
      cases hg : getC (pSeries g) i <;>
        cases hm : rollMeanAt (pSeries g) cfg.z_window i <;>
          simp [hg, hm, hvar]
    · rw [if_neg h1] at hvar
      have hm : rollMeanAt (pSeries g) cfg.z_window i =
          some (listMean (List.replicate cfg.z_window c)) := by
        unfold rollMeanAt
        rw [hwin]
        rfl
      cases hg : getC (pSeries g) i <;> simp [hg, hm, hvar]
  · intro h2
    unfold rollStdAt
    rw [hvar, if_neg (by omega)]
    simp

/-- Witness for C10: a two-row partition with constant probability 1/2
and `z_window = 2` has a missing z-score and rolling std `0` at row 1. -/
theorem claim_C10_witness :
    winAt (pSeries [mkRow (some "A") (some 0) (some (1/2)) (some (1/2)) none none,
        mkRow (some "A") (some 1) (some (1/2)) (some (1/2)) none none])
      (2 : ℕ) 1 = some (List.replicate 2 (1/2)) ∧
    (featureRowAt { z_window := 2 } false false
      [mkRow (some "A") (some 0) (some (1/2)) (some (1/2)) none none,
       mkRow (some "A") (some 1) (some (1/2)) (some (1/2)) none none] 1).z_p = none ∧
    rollStdAt (pSeries [mkRow (some "A") (some 0) (some (1/2)) (some (1/2)) none none,
        mkRow (some "A") (some 1) (some (1/2)) (some (1/2)) none none]) 2 1 = some 0 := by
  have hmid : mid (some (1/2)) (some (1/2)) = some (1/2) := by
    norm_num [mid, hasBook, normalizePriceToProb, optAdd]
  have hp : pSeries [mkRow (some "A") (some 0) (some (1/2)) (some (1/2)) none none,
      mkRow (some "A") (some 1) (some (1/2)) (some (1/2)) none none] =
      [some (1/2), some (1/2)] := by
    simp only [pSeries, mkRow, List.map_cons, List.map_nil, hmid]
    rfl
  have hwin : winAt (pSeries [mkRow (some "A") (some 0) (some (1/2)) (some (1/2)) none none,
      mkRow (some "A") (some 1) (some (1/2)) (some (1/2)) none none]) 2 1 =
      some (List.replicate 2 (1/2)) := by
    rw [hp]
    rfl
  have h := claim_C10 { z_window := 2 } false false
    [mkRow (some "A") (some 0) (some (1/2)) (some (1/2)) none none,
     mkRow (some "A") (some 1) (some (1/2)) (some (1/2)) none none] 1 (1/2) hwin
  exact ⟨hwin, h.1, h.2 (by norm_num)⟩

/-! ## C8: validation of the required columns -/

/-- **C8.** `add_indicators` fails if and only if at least one required
input column is absent; the error enumerates exactly the missing column
names (in schema order); when all required columns are present the call
succeeds.  The model is a pure function returning `Except`, so a failing
call produces no partial output and leaves the input unchanged by
construction. -/
theorem claim_C8 (cfg : IndicatorConfig) (df : DataFrame) :
    (∀ m, addIndicators cfg df = Except.error m ↔
      (m = requiredCols.filter (fun c => ! df.cols.contains c) ∧ m ≠ [])) ∧
    ((∀ c ∈ requiredCols, df.cols.contains c) ↔
      ∃ out, addIndicators cfg df = Except.ok out) ∧
    (∀ c, c ∈ requiredCols.filter (fun c => ! df.cols.contains c) ↔
      (c ∈ requiredCols ∧ ¬ df.cols.contains c)) := by
  refine ⟨?_, ?_, ?_⟩
  · intro m
    unfold addIndicators
    by_cases h : (requiredCols.filter (fun c => ! df.cols.contains c)).isEmpty
    · rw [if_pos h]
      rw [List.isEmpty_iff] at h
      constructor
      · intro hcon; exact absurd hcon (by simp)
      · rintro ⟨rfl, hne⟩; exact absurd h hne
    · rw [if_neg h]
      rw [List.isEmpty_iff] at h
      constructor
      · intro hcon
        have := (Except.error.injEq _ _).mp hcon.symm
        exact ⟨this, this ▸ h⟩
      · rintro ⟨rfl, hne⟩; rfl
  · constructor
    · intro hall
      have hnil : requiredCols.filter (fun c => ! df.cols.contains c) = [] :=
        List.filter_eq_nil_iff.mpr (fun c hc => by simpa using hall c hc)
      cases hout : addIndicators cfg df with
      | ok out => exact ⟨out, rfl⟩
      | error m =>
        exfalso
        unfold addIndicators at hout
        rw [if_pos (by rw [hnil]; rfl)] at hout
        exact absurd hout (by simp)
    · rintro ⟨out, hout⟩ c hc
      by_cases h : (requiredCols.filter (fun c => ! df.cols.contains c)).isEmpty
      · rw [List.isEmpty_iff] at h
        have := List.filter_eq_nil_iff.mp h c hc
        simpa using this
      · unfold addIndicators at hout
        rw [if_neg h] at hout
        exact absurd hout (by simp)
  · intro c
    simp [List.mem_filter]

/-- Witness for C8: a frame lacking `no_ask` fails with exactly that
column name; a frame with the full required schema succeeds. -/
theorem claim_C8_witness :
    addIndicators defaultConfig
      ⟨["ticker", "timestamp", "close_time", "yes_bid", "yes_ask", "no_bid"], []⟩ =
      Except.error ["no_ask"] ∧
    ∃ out, addIndicators defaultConfig (mkFrame []) = Except.ok out := by
  constructor
  · exact ((claim_C8 defaultConfig _).1 ["no_ask"]).mpr ⟨by decide, by decide⟩
  · exact (claim_C8 defaultConfig (mkFrame [])).2.1.mp (by decide)

/-! ## C7: missing inputs propagate (amended: boolean fields are false) -/

theorem slice_has_none {xs : List Cell} {w i : ℕ} (hw : w ≠ 0)
    (h2 : ¬ (i + 1 < w)) (hi : i < xs.length) (hx : getC xs i = none) :
    none ∈ (xs.drop (i + 1 - w)).take w := by
  have hxi : xs[i]? = some none := by
    rw [List.getElem?_eq_getElem hi]
    unfold getC at hx
    rw [List.getD_eq_getElem?_getD, List.getElem?_eq_getElem hi] at hx
    simpa using hx
  have hsl : ((xs.drop (i + 1 - w)).take w)[w - 1]? = some none := by
    rw [List.getElem?_take, if_pos (by omega), List.getElem?_drop]
    have : i + 1 - w + (w - 1) = i := by omega
    rw [this, hxi]
  exact List.getElem?_mem hsl

theorem rollVarAt_none {xs : List Cell} {w i : ℕ} (hi : i < xs.length)
    (hx : getC xs i = none) : rollVarAt xs w i = none := by
  unfold rollVarAt winAt
  by_cases h1 : i + 1 < w
  · rw [if_pos h1]; rfl
  · rw [if_neg h1]
    rcases Nat.eq_zero_or_pos w with hw0 | hwpos
    · subst hw0
      simp [allSome, sampleVar]
    · rw [allSome_eq_none_of_mem (slice_has_none (by omega) h1 hi hx)]
      rfl

theorem rollMaxAt_none {xs : List Cell} {w i : ℕ} (hi : i < xs.length)
    (hx : getC xs i = none) : rollMaxAt xs w i = none := by
  unfold rollMaxAt winAt
  by_cases h1 : i + 1 < w
  · rw [if_pos h1]; rfl
  · rw [if_neg h1]
    rcases Nat.eq_zero_or_pos w with hw0 | hwpos
    · subst hw0
      simp [allSome, listMaxQ]
    · rw [allSome_eq_none_of_mem (slice_has_none (by omega) h1 hi hx)]
      rfl

theorem rollMinAt_none {xs : List Cell} {w i : ℕ} (hi : i < xs.length)
    (hx : getC xs i = none) : rollMinAt xs w i = none := by
  unfold rollMinAt winAt
  by_cases h1 : i + 1 < w
  · rw [if_pos h1]; rfl
  · rw [if_neg h1]
    rcases Nat.eq_zero_or_pos w with hw0 | hwpos
    · subst hw0
      simp [allSome, listMinQ]
    · rw [allSome_eq_none_of_mem (slice_has_none (by omega) h1 hi hx)]
      rfl

theorem diffSeries_length (xs : List Cell) : (diffSeries xs).length = xs.length := by
  simp [diffSeries]

theorem getC_diffSeries (xs : List Cell) {i : ℕ} (hi : i < xs.length) :
    getC (diffSeries xs) i = diffAt xs i := by
  unfold diffSeries
  exact getC_range_map _ _ hi

/-- **C7 (amended).** On a row whose probability estimate is missing,
every numeric derived field downstream of it is missing, never a numeric
placeholder; the boolean-typed derived fields `near_bounds` and
`is_unchanged`, whose dtype admits no missing marker, evaluate to `false`
there (rather than to a missing value, as the original claim stated).
Likewise, when a side's book is absent its mid/spread/relative spread are
missing, a missing mid makes `overround` missing, and an absent `volume`
column yields missing `volume`/`d_volume`. -/
theorem claim_C7 (cfg : IndicatorConfig) (hv ho : Bool) (g : List Row)
    (i : ℕ) (hi : i < g.length)
    (hp : (featureRowAt cfg hv ho g i).p_yes = none) :
    (featureRowAt cfg hv ho g i).near_bounds = false ∧
    (featureRowAt cfg hv ho g i).is_unchanged = false ∧
    (featureRowAt cfg hv ho g i).delta_p = none ∧
    (featureRowAt cfg hv ho g i).momentum_p = none ∧
    (featureRowAt cfg hv ho g i).z_p = none ∧
    (featureRowAt cfg hv ho g i).vol_p = none ∧
    (featureRowAt cfg hv ho g i).range_p = none ∧
    (featureRowAt cfg hv ho g i).accel_p = none ∧
    ((featureRowAt cfg hv ho g i).has_yes_book = false →
      (featureRowAt cfg hv ho g i).mid_yes = none ∧
      (featureRowAt cfg hv ho g i).spread_yes = none ∧
      (featureRowAt cfg hv ho g i).rel_spread_yes = none) ∧
    (((featureRowAt cfg hv ho g i).mid_yes = none ∨
      (featureRowAt cfg hv ho g i).mid_no = none) →
      (featureRowAt cfg hv ho g i).overround = none) ∧
    (hv = false →
      (featureRowAt cfg hv ho g i).volume = none ∧
      (featureRowAt cfg hv ho g i).d_volume = none) := by
  have hp' : getC (pSeries g) i = none := by
    rw [getC_pSeries g hi, ← getD_eq_getElem hi]
    exact hp
  have hd : getC (diffSeries (pSeries g)) i = none := by
    rw [getC_diffSeries _ (by rw [pSeries_length]; exact hi)]
    cases i with
    | zero => rfl
    | succ j =>
      show optSub (getC (pSeries g) (j + 1)) (getC (pSeries g) j) = none
      rw [hp']
      rfl
  have hlp : i < (pSeries g).length := by rw [pSeries_length]; exact hi
  have hld : i < (diffSeries (pSeries g)).length := by
    rw [diffSeries_length, pSeries_length]; exact hi
  refine ⟨?_, ?_, ?_, ?_, ?_, ?_, ?_, ?_, ?_, ?_, ?_⟩
  · rw [frAt_near_bounds, hp']; rfl
  · rw [frAt_is_unchanged, hp']; rfl
  · rw [frAt_delta_p]
    cases i with
    | zero => rfl
    | succ j =>
      show optSub (getC (pSeries g) (j + 1)) (getC (pSeries g) j) = none
      rw [hp']
      rfl
  · rw [frAt_momentum_p, hp']; rfl
  · rw [frAt_z_p]
    unfold zscoreAt
    rw [hp']
  · rw [frAt_vol_p]
    unfold rollStdAt
    rw [rollVarAt_none hld hd]
    rfl
  · rw [frAt_range_p]
    unfold rangeAt
    rw [rollMaxAt_none hlp hp', rollMinAt_none hlp hp']
    rfl
  · rw [frAt_accel_p]
    cases i with
    | zero => rfl
    | succ j =>
      show optSub (getC (diffSeries (pSeries g)) (j + 1))
        (getC (diffSeries (pSeries g)) j) = none
      rw [hd]
      rfl
  · intro hb
    rw [frAt_has_yes_book] at hb
    refine ⟨?_, ?_, ?_⟩
    · rw [frAt_mid_yes]; unfold mid; rw [hb]; rfl
    · rw [frAt_spread_yes]; unfold spreadCell; rw [hb]; rfl
    · rw [frAt_rel_spread_yes]
      have hsn : spreadCell (g.getD i defaultRow).yes_bid
          (g.getD i defaultRow).yes_ask = none := by
        unfold spreadCell; rw [hb]; rfl
      rw [hsn]
      unfold relSpread
      cases replaceZero (mid (g.getD i defaultRow).yes_bid
        (g.getD i defaultRow).yes_ask) <;> rfl
  · rintro (hm | hm) <;>
      [rw [frAt_mid_yes] at hm; rw [frAt_mid_no] at hm] <;>
      rw [frAt_overround] <;> unfold overroundCell optAdd <;> rw [hm]
    · rfl
    · cases mid (g.getD i defaultRow).yes_bid (g.getD i defaultRow).yes_ask <;> rfl
  · rintro rfl
    have hvnone : getC (volSeries false g) i = none := by
      unfold getC volSeries
      rw [List.getD_eq_getElem?_getD, List.getElem?_map]
      cases g[i]? <;> rfl
    refine ⟨by rw [frAt_volume]; exact hvnone, ?_⟩
    rw [frAt_d_volume]
    cases i with
    | zero => rfl
    | succ j =>
      show optSub (getC (volSeries false g) (j + 1))
        (getC (volSeries false g) j) = none
      rw [hvnone]
      rfl

/-- Counterexample to C7 as stated: on a row with no book at all the
probability estimate is missing, yet the boolean derived fields
`near_bounds` and `is_unchanged` are the boolean placeholder `false`,
not a missing marker — the boolean dtype produced by the comparisons in
the source has no missing state. -/
theorem claim_C7_counterexample :
    (featureRowAt defaultConfig false false
      [mkRow (some "A") (some 0) none none none none] 0).p_yes = none ∧
    (featureRowAt defaultConfig false false
      [mkRow (some "A") (some 0) none none none none] 0).near_bounds = false ∧
    (featureRowAt defaultConfig false false
      [mkRow (some "A") (some 0) none none none none] 0).is_unchanged = false :=
  ⟨rfl, rfl, rfl⟩

/-- Witness for C7's amended theorem at the same concrete row. -/
theorem claim_C7_witness :
    (featureRowAt defaultConfig false false
      [mkRow (some "A") (some 0) none none none none] 0).z_p = none ∧
    (featureRowAt defaultConfig false false
      [mkRow (some "A") (some 0) none none none none] 0).vol_p = none ∧
    (featureRowAt defaultConfig false false
      [mkRow (some "A") (some 0) none none none none] 0).range_p = none ∧
    (featureRowAt defaultConfig false false
      [mkRow (some "A") (some 0) none none none none] 0).near_bounds = false := by
  have h := claim_C7 defaultConfig false false
    [mkRow (some "A") (some 0) none none none none] 0 (by decide) rfl
  exact ⟨h.2.2.2.2.1, h.2.2.2.2.2.1, h.2.2.2.2.2.2.1, h.1⟩

/-! ## C6: the exponential moving averages -/

theorem ewma_fold_of_allSome (a : ℚ) (xs : List Cell) (v : ℕ → ℚ)
    (hx : ∀ j, j < xs.length → getC xs j = some (v j)) :
    ∀ i, i < xs.length →
      (xs.take (i + 1)).foldl (ewmaStep a) none = some (emaSpec a v i, 1) := by
  intro i
  induction i with
  | zero =>
    intro h0
    have hx0 : xs[0]? = some (some (v 0)) := getC_eq_some_iff.mp (hx 0 h0)
    rw [List.take_succ, List.take_zero, hx0]
    rfl
  | succ j ih =>
    intro hj1
    have hxj : xs[j + 1]? = some (some (v (j + 1))) :=
      getC_eq_some_iff.mp (hx (j + 1) hj1)
    rw [List.take_succ, hxj, List.foldl_append,
      ih (Nat.lt_of_succ_lt hj1)]
    show some ((1 * (1 - a) * emaSpec a v j + a * v (j + 1)) /
      (1 * (1 - a) + a), 1) = some (emaSpec a v (j + 1), 1)
    have harith : (1 * (1 - a) * emaSpec a v j + a * v (j + 1)) /
        (1 * (1 - a) + a) = a * v (j + 1) + (1 - a) * emaSpec a v j := by
      rw [one_mul, show (1 - a) + a = 1 by ring, div_one]
      ring
    rw [harith]
    rfl

theorem ewma_foldl_some (a : ℚ) (l : List Cell) (s : ℚ × ℚ) :
    ∃ z, l.foldl (ewmaStep a) (some s) = some z := by
  induction l generalizing s with
  | nil => exact ⟨s, rfl⟩
  | cons c cs ih =>
    cases c with
    | none => exact ih _
    | some x => exact ih _

/-- **C6 (amended).** On a partition whose probability estimate is
present at every row, `ema_fast`/`ema_slow` satisfy the textbook
recurrence with `alpha = 2/(span+1)`: seeded with the first value and
`ema[i] = alpha * p[i] + (1-alpha) * ema[i-1]`, with
`ema_diff = ema_fast - ema_slow`; and in general, once an EMA is seeded
it is never missing at any later row.  (On partitions with internal
missing values the pandas `ewm` update deviates from this recurrence —
see the counterexample.) -/
theorem claim_C6 :
    (∀ (cfg : IndicatorConfig) (hv ho : Bool) (g : List Row) (v : ℕ → ℚ),
      (∀ j, j < g.length → getC (pSeries g) j = some (v j)) →
      ∀ i, i < g.length →
        (featureRowAt cfg hv ho g i).ema_fast =
          some (emaSpec (alphaOfSpan cfg.ema_fast) v i) ∧
        (featureRowAt cfg hv ho g i).ema_slow =
          some (emaSpec (alphaOfSpan cfg.ema_slow) v i) ∧
        (featureRowAt cfg hv ho g i).ema_diff =
          some (emaSpec (alphaOfSpan cfg.ema_fast) v i -
            emaSpec (alphaOfSpan cfg.ema_slow) v i)) ∧
    (∀ (span : ℕ) (xs : List Cell) (i j : ℕ), i ≤ j →
      ewmaAt span xs i ≠ none → ewmaAt span xs j ≠ none) := by
  constructor
  · intro cfg hv ho g v hx i hi
    have hx' : ∀ j, j < (pSeries g).length → getC (pSeries g) j = some (v j) := by
      rw [pSeries_length]; exact hx
    have hi' : i < (pSeries g).length := by rw [pSeries_length]; exact hi
    have hfast := ewma_fold_of_allSome (alphaOfSpan cfg.ema_fast) _ v hx' i hi'
    have hslow := ewma_fold_of_allSome (alphaOfSpan cfg.ema_slow) _ v hx' i hi'
    refine ⟨?_, ?_, ?_⟩
    · rw [frAt_ema_fast]; unfold ewmaAt; rw [hfast]; rfl
    · rw [frAt_ema_slow]; unfold ewmaAt; rw [hslow]; rfl
    · rw [frAt_ema_diff]; unfold ewmaAt; rw [hfast, hslow]; rfl
  · intro span xs i j hij hsome
    unfold ewmaAt at hsome ⊢
    rcases hfold : (xs.take (i + 1)).foldl (ewmaStep (alphaOfSpan span)) none with _ | s
    · rw [hfold] at hsome; exact absurd rfl hsome
    · have hsplit : xs.take (j + 1) =
          xs.take (i + 1) ++ (xs.drop (i + 1)).take (j - i) := by
        rw [← List.take_add]
        congr 1
        omega
      rw [hsplit, List.foldl_append, hfold]
      obtain ⟨z, hz⟩ := ewma_foldl_some (alphaOfSpan span) ((xs.drop (i + 1)).take (j - i)) s
      rw [hz]
      simp

/-- Counterexample to C6 as stated: on the partition with probability
series `[0.5, NaN, 0.7]` and span 2, the pandas `ewm(adjust=False)`
update weights the restart after the gap by `(1-alpha)^2`, giving
`ema[2] = 47/70 ≈ 0.671`, while the claimed recurrence
`alpha * p[2] + (1-alpha) * ema[1]` gives `19/30 ≈ 0.633` even though
both `p[2]` and `ema[1]` are defined. -/
theorem claim_C6_counterexample :
    pSeries [mkRow (some "A") (some 0) (some (1/2)) (some (1/2)) none none,
      mkRow (some "A") (some 1) none none none none,
      mkRow (some "A") (some 2) (some (7/10)) (some (7/10)) none none] =
      [some (1/2), none, some (7/10)] ∧
    (featureRowAt { ema_fast := 2 } false false
      [mkRow (some "A") (some 0) (some (1/2)) (some (1/2)) none none,
       mkRow (some "A") (some 1) none none none none,
       mkRow (some "A") (some 2) (some (7/10)) (some (7/10)) none none] 1).ema_fast =
      some (1/2) ∧
    (featureRowAt { ema_fast := 2 } false false
      [mkRow (some "A") (some 0) (some (1/2)) (some (1/2)) none none,
       mkRow (some "A") (some 1) none none none none,
       mkRow (some "A") (some 2) (some (7/10)) (some (7/10)) none none] 2).ema_fast =
      some (47/70) ∧
    alphaOfSpan 2 * (7/10) + (1 - alphaOfSpan 2) * (1/2) = 19/30 ∧
    (47/70 : ℚ) ≠ 19/30 := by
  have hmid1 : mid (some (1/2)) (some (1/2)) = some (1/2) := by
    norm_num [mid, hasBook, normalizePriceToProb, optAdd]
  have hmid2 : mid (some (7/10)) (some (7/10)) = some (7/10) := by
    norm_num [mid, hasBook, normalizePriceToProb, optAdd]
  have hp : pSeries [mkRow (some "A") (some 0) (some (1/2)) (some (1/2)) none none,
      mkRow (some "A") (some 1) none none none none,
      mkRow (some "A") (some 2) (some (7/10)) (some (7/10)) none none] =
      [some (1/2), none, some (7/10)] := by
    simp only [pSeries, mkRow, List.map_cons, List.map_nil, hmid1, hmid2]
    rfl
  refine ⟨hp, ?_, ?_, by norm_num [alphaOfSpan], by norm_num⟩
  · rw [frAt_ema_fast, hp]
    rfl
  · rw [frAt_ema_fast, hp]
    show Option.map Prod.fst
      (([some (1/2), none, some ((7:ℚ)/10)].take 3).foldl
        (ewmaStep (alphaOfSpan 2)) none) = some (47/70)
    norm_num [List.take, List.foldl, ewmaStep, alphaOfSpan]

/-- Witness for C6: on the gap-free series `[0.5, 0.6, 0.7]` with span 2
the pipeline EMA follows the recurrence, whose values are
`[0.5, 17/30, 59/90]`. -/
theorem claim_C6_witness :
    (featureRowAt { ema_fast := 2, ema_slow := 2 } false false
      [mkRow (some "A") (some 0) (some (1/2)) (some (1/2)) none none,
       mkRow (some "A") (some 1) (some (3/5)) (some (3/5)) none none,
       mkRow (some "A") (some 2) (some (7/10)) (some (7/10)) none none] 2).ema_fast =
      some (emaSpec (alphaOfSpan 2) (fun j => 1/2 + (j : ℚ)/10) 2) ∧
    emaSpec (alphaOfSpan 2) (fun j => 1/2 + (j : ℚ)/10) 0 = 1/2 ∧
    emaSpec (alphaOfSpan 2) (fun j => 1/2 + (j : ℚ)/10) 1 = 17/30 ∧
    emaSpec (alphaOfSpan 2) (fun j => 1/2 + (j : ℚ)/10) 2 = 59/90 := by
  have hmid1 : mid (some (1/2)) (some (1/2)) = some (1/2) := by
    norm_num [mid, hasBook, normalizePriceToProb, optAdd]
  have hmid2 : mid (some (3/5)) (some (3/5)) = some (3/5) := by
    norm_num [mid, hasBook, normalizePriceToProb, optAdd]
  have hmid3 : mid (some (7/10)) (some (7/10)) = some (7/10) := by
    norm_num [mid, hasBook, normalizePriceToProb, optAdd]
  have hp : pSeries [mkRow (some "A") (some 0) (some (1/2)) (some (1/2)) none none,
      mkRow (some "A") (some 1) (some (3/5)) (some (3/5)) none none,
      mkRow (some "A") (some 2) (some (7/10)) (some (7/10)) none none] =
      [some (1/2), some (3/5), some (7/10)] := by
    simp only [pSeries, mkRow, List.map_cons, List.map_nil, hmid1, hmid2, hmid3]
    rfl
  refine ⟨?_, by norm_num [emaSpec, alphaOfSpan],
    by norm_num [emaSpec, alphaOfSpan], by norm_num [emaSpec, alphaOfSpan]⟩
  refine (claim_C6.1 { ema_fast := 2, ema_slow := 2 } false false _
    (fun j => 1/2 + (j : ℚ)/10) ?_ 2 (by decide)).1
  intro j hj
  have hj3 : j < 3 := by simpa using hj
  rw [hp]
  interval_cases j <;> norm_num [getC]

/-! ## C2: the rolling statistics -/

theorem slice_has_none_at {xs : List Cell} {m w k : ℕ} (hm : m ≤ k)
    (hw : k < m + w) (hlen : k < xs.length) (hx : getC xs k = none) :
    none ∈ (xs.drop m).take w := by
  have hxk : xs[k]? = some none := by
    rw [List.getElem?_eq_getElem hlen]
    unfold getC at hx
    rw [List.getD_eq_getElem?_getD, List.getElem?_eq_getElem hlen] at hx
    simpa using hx
  have hsl : ((xs.drop m).take w)[k - m]? = some none := by
    rw [List.getElem?_take, if_pos (by omega), List.getElem?_drop]
    have hmk : m + (k - m) = k := by omega
    rw [hmk, hxk]
  exact List.getElem?_mem hsl

theorem slice_eq_range'_map {xs : List Cell} {v : ℕ → ℚ} {m w : ℕ}
    (_hlen : m + w ≤ xs.length)
    (hx : ∀ j, m ≤ j → j < m + w → getC xs j = some (v j)) :
    (xs.drop m).take w = (List.range' m w).map (fun j => some (v j)) := by
  rw [List.ext_getElem?_iff]
  intro k
  by_cases hk : k < w
  · rw [List.getElem?_take, if_pos hk, List.getElem?_drop, List.getElem?_map]
    rw [show (List.range' m w)[k]? = some (m + k) by
      simp [List.getElem?_range', hk]]
    have := getC_eq_some_iff.mp (hx (m + k) (by omega) (by omega))
    rw [this]
    rfl
  · rw [List.getElem?_take, if_neg hk]
    rw [List.getElem?_eq_none (by simp; omega)]

theorem winAt_of_values {xs : List Cell} {v : ℕ → ℚ} {w i : ℕ}
    (hwi : w ≤ i + 1) (hi : i < xs.length)
    (hx : ∀ j, i + 1 - w ≤ j → j < i + 1 → getC xs j = some (v j)) :
    winAt xs w i = some ((List.range' (i + 1 - w) w).map v) := by
  unfold winAt
  rw [if_neg (by omega)]
  rw [slice_eq_range'_map (by omega) (fun j h1 h2 => hx j h1 (by omega))]
  exact allSome_map_some _ _

theorem zscoreAt_warmup {xs : List Cell} {w i : ℕ} (h : i + 1 < w) :
    zscoreAt xs w i = none := by
  have hwin : winAt xs w i = none := by unfold winAt; rw [if_pos h]
  unfold zscoreAt rollMeanAt rollVarAt
  rw [hwin]
  cases getC xs i <;> rfl

theorem rangeAt_warmup {xs : List Cell} {w i : ℕ} (h : i + 1 < w) :
    rangeAt xs w i = none := by
  have hwin : winAt xs w i = none := by unfold winAt; rw [if_pos h]
  unfold rangeAt rollMaxAt rollMinAt
  rw [hwin]
  rfl

theorem sampleVar_of_length {vs : List ℚ} (h : 2 ≤ vs.length) :
    ∃ q, sampleVar vs = some q := by
  unfold sampleVar
  rw [if_neg (by omega)]
  exact ⟨_, rfl⟩

/-- **C2 (amended).** On a partition whose probability estimate is
present at every row: `range_p` is missing at exactly the first
`range_window - 1` rows and is the trailing max minus trailing min
afterwards; `z_p` is missing at the first `z_window - 1` rows, and
afterwards equals `(p - mean)/std` over the trailing window except that
it is additionally missing where the trailing sample variance is zero;
`vol_p` is missing at exactly the first `vol_window` rows — one more
than the claimed `vol_window - 1`, because its input `delta_p` is itself
missing at the partition's first row — and afterwards is the sample
std of the trailing `vol_window` deltas.  (`z_window`/`vol_window ≥ 2`:
a sample std over one observation is undefined.) -/
theorem claim_C2 (cfg : IndicatorConfig) (hv ho : Bool) (g : List Row)
    (v : ℕ → ℚ)
    (hx : ∀ j, j < g.length → getC (pSeries g) j = some (v j))
    (i : ℕ) (hi : i < g.length) :
    (i + 1 < cfg.range_window → (featureRowAt cfg hv ho g i).range_p = none) ∧
    (1 ≤ cfg.range_window → cfg.range_window ≤ i + 1 →
      ∃ mx mn,
        listMaxQ ((List.range' (i + 1 - cfg.range_window) cfg.range_window).map v) =
          some mx ∧
        listMinQ ((List.range' (i + 1 - cfg.range_window) cfg.range_window).map v) =
          some mn ∧
        (featureRowAt cfg hv ho g i).range_p = some (mx - mn)) ∧
    (i + 1 < cfg.z_window → (featureRowAt cfg hv ho g i).z_p = none) ∧
    (2 ≤ cfg.z_window → cfg.z_window ≤ i + 1 →
      ∃ q, sampleVar ((List.range' (i + 1 - cfg.z_window) cfg.z_window).map v) =
        some q) ∧
    (∀ q, 2 ≤ cfg.z_window → cfg.z_window ≤ i + 1 →
      sampleVar ((List.range' (i + 1 - cfg.z_window) cfg.z_window).map v) = some q →
      (featureRowAt cfg hv ho g i).z_p =
        if q = 0 then none
        else some (((v i -
          listMean ((List.range' (i + 1 - cfg.z_window) cfg.z_window).map v) : ℚ) : ℝ) /
          Real.sqrt (q : ℝ))) ∧
    (i < cfg.vol_window → (featureRowAt cfg hv ho g i).vol_p = none) ∧
    (2 ≤ cfg.vol_window → cfg.vol_window ≤ i →
      (featureRowAt cfg hv ho g i).vol_p =
        (sampleVar ((List.range' (i + 1 - cfg.vol_window) cfg.vol_window).map
          (fun j => v j - v (j - 1)))).map (fun q => Real.sqrt (q : ℝ))) := by
  have hlenp : (pSeries g).length = g.length := pSeries_length g
  have hip : i < (pSeries g).length := by rw [hlenp]; exact hi
  have hxp : ∀ j, j < (pSeries g).length → getC (pSeries g) j = some (v j) := by
    rw [hlenp]; exact hx
  refine ⟨?_, ?_, ?_, ?_, ?_, ?_, ?_⟩
  · intro h
    rw [frAt_range_p]
    exact rangeAt_warmup h
  · intro hw1 hwi
    have hwin := winAt_of_values hwi hip (fun j h1 h2 => hxp j (by omega))
    rcases hleft : (List.range' (i + 1 - cfg.range_window) cfg.range_window).map v with
      _ | ⟨h0, t⟩
    · exfalso
      have : cfg.range_window = 0 := by
        have := congrArg List.length hleft
        simpa using this
      omega
    · refine ⟨t.foldl max h0, t.foldl min h0, rfl, rfl, ?_⟩
      rw [frAt_range_p]
      unfold rangeAt rollMaxAt rollMinAt
      rw [hwin, hleft]
      rfl
  · intro h
    rw [frAt_z_p]
    exact zscoreAt_warmup h
  · intro hw2 hwi
    refine sampleVar_of_length ?_
    simpa using hw2
  · intro q hw2 hwi hq
    rw [frAt_z_p]
    have hwin := winAt_of_values hwi hip (fun j h1 h2 => hxp j (by omega))
    unfold zscoreAt rollMeanAt rollVarAt
    rw [hwin, hxp i hip]
    show (match some (v i),
        Option.map listMean (some ((List.range' (i + 1 - cfg.z_window) cfg.z_window).map v)),
        sampleVar ((List.range' (i + 1 - cfg.z_window) cfg.z_window).map v) with
      | some x, some m, some q => if q = 0 then none
        else some (((x - m : ℚ) : ℝ) / Real.sqrt (q : ℝ))
      | _, _, _ => none) = _
    rw [hq]
    rfl
  · intro hiw
    rw [frAt_vol_p]
    unfold rollStdAt
    by_cases h1 : i + 1 < cfg.vol_window
    · have hwin : winAt (diffSeries (pSeries g)) cfg.vol_window i = none := by
        unfold winAt; rw [if_pos h1]
      unfold rollVarAt
      rw [hwin]
      rfl
    · have hw0 : cfg.vol_window ≠ 0 := by omega
      have hd0 : getC (diffSeries (pSeries g)) 0 = none := by
        rw [getC_diffSeries _ (by omega)]
        rfl
      have hlen0 : 0 < (diffSeries (pSeries g)).length := by
        rw [diffSeries_length]; omega
      have hmem : none ∈ ((diffSeries (pSeries g)).drop
          (i + 1 - cfg.vol_window)).take cfg.vol_window :=
        slice_has_none_at (by omega) (by omega) hlen0 hd0
      have hwin : winAt (diffSeries (pSeries g)) cfg.vol_window i = none := by
        unfold winAt
        rw [if_neg h1]
        exact allSome_eq_none_of_mem hmem
      unfold rollVarAt
      rw [hwin]
      rfl
  · intro hw2 hwi
    rw [frAt_vol_p]
    have hxd : ∀ j, i + 1 - cfg.vol_window ≤ j → j < i + 1 →
        getC (diffSeries (pSeries g)) j = some (v j - v (j - 1)) := by
      intro j h1 h2
      rw [getC_diffSeries _ (by rw [hlenp]; omega)]
      cases j with
      | zero => omega
      | succ k =>
        show optSub (getC (pSeries g) (k + 1)) (getC (pSeries g) k) =
          some (v (k + 1) - v (k + 1 - 1))
        rw [hx (k + 1) (by omega), hx k (by omega)]
        rfl
    have hid : i < (diffSeries (pSeries g)).length := by
      rw [diffSeries_length, hlenp]; exact hi
    have hwin := winAt_of_values (by omega) hid hxd
    unfold rollStdAt rollVarAt
    rw [hwin]
    rfl

/-- Counterexample to C2 as stated: on a two-row partition with
probability estimates defined at every row and `vol_window = 2`,
`vol_p` at row index 1 — not among the first `W - 1 = 1` rows — is
nevertheless missing, because its input series `delta_p` is missing at
the partition's first row and the window's `min_periods` then reject the
window. -/
theorem claim_C2_counterexample :
    getC (pSeries [mkRow (some "A") (some 0) (some (1/2)) (some (1/2)) none none,
      mkRow (some "A") (some 1) (some (3/5)) (some (3/5)) none none]) 0 =
      some (1/2) ∧
    getC (pSeries [mkRow (some "A") (some 0) (some (1/2)) (some (1/2)) none none,
      mkRow (some "A") (some 1) (some (3/5)) (some (3/5)) none none]) 1 =
      some (3/5) ∧
    ¬ (∀ i, i < 2 →
      ((featureRowAt { vol_window := 2 } false false
        [mkRow (some "A") (some 0) (some (1/2)) (some (1/2)) none none,
         mkRow (some "A") (some 1) (some (3/5)) (some (3/5)) none none] i).vol_p = none ↔
        i < 2 - 1)) := by
  have hmid1 : mid (some (1/2)) (some (1/2)) = some (1/2) := by
    norm_num [mid, hasBook, normalizePriceToProb, optAdd]
  have hmid2 : mid (some (3/5)) (some (3/5)) = some (3/5) := by
    norm_num [mid, hasBook, normalizePriceToProb, optAdd]
  have hp : pSeries [mkRow (some "A") (some 0) (some (1/2)) (some (1/2)) none none,
      mkRow (some "A") (some 1) (some (3/5)) (some (3/5)) none none] =
      [some (1/2), some (3/5)] := by
    simp only [pSeries, mkRow, List.map_cons, List.map_nil, hmid1, hmid2]
    rfl
  refine ⟨by rw [hp]; rfl, by rw [hp]; rfl, ?_⟩
  intro h
  have hvol : (featureRowAt { vol_window := 2 } false false
      [mkRow (some "A") (some 0) (some (1/2)) (some (1/2)) none none,
       mkRow (some "A") (some 1) (some (3/5)) (some (3/5)) none none] 1).vol_p = none := by
    rw [frAt_vol_p, hp]
    rfl
  have := (h 1 (by norm_num)).mp hvol
  omega

/-- Witness for C2's amended theorem on the four-row partition with
probability estimates `[0.1, 0.2, 0.3, 0.4]` and all windows 3:
`z_p` is missing during warm-up at row 1, at row 2 it equals
`(0.3 - 0.2)/sqrt(0.01)`, `range_p` at row 2 is `0.3 - 0.1 = 1/5`, and
`vol_p` is first defined at row 3 where the trailing deltas are constant
and it equals `0`. -/
theorem claim_C2_witness :
    (featureRowAt { z_window := 3, vol_window := 3, range_window := 3 } false false
      [mkRow (some "A") (some 0) (some (1/10)) (some (1/10)) none none,
       mkRow (some "A") (some 1) (some (2/10)) (some (2/10)) none none,
       mkRow (some "A") (some 2) (some (3/10)) (some (3/10)) none none,
       mkRow (some "A") (some 3) (some (4/10)) (some (4/10)) none none] 1).z_p = none ∧
    (featureRowAt { z_window := 3, vol_window := 3, range_window := 3 } false false
      [mkRow (some "A") (some 0) (some (1/10)) (some (1/10)) none none,
       mkRow (some "A") (some 1) (some (2/10)) (some (2/10)) none none,
       mkRow (some "A") (some 2) (some (3/10)) (some (3/10)) none none,
       mkRow (some "A") (some 3) (some (4/10)) (some (4/10)) none none] 2).z_p =
      some (((3/10 - 1/5 : ℚ) : ℝ) / Real.sqrt ((1/100 : ℚ) : ℝ)) ∧
    (featureRowAt { z_window := 3, vol_window := 3, range_window := 3 } false false
      [mkRow (some "A") (some 0) (some (1/10)) (some (1/10)) none none,
       mkRow (some "A") (some 1) (some (2/10)) (some (2/10)) none none,
       mkRow (some "A") (some 2) (some (3/10)) (some (3/10)) none none,
       mkRow (some "A") (some 3) (some (4/10)) (some (4/10)) none none] 2).range_p =
      some (1/5) ∧
    (featureRowAt { z_window := 3, vol_window := 3, range_window := 3 } false false
      [mkRow (some "A") (some 0) (some (1/10)) (some (1/10)) none none,
       mkRow (some "A") (some 1) (some (2/10)) (some (2/10)) none none,
       mkRow (some "A") (some 2) (some (3/10)) (some (3/10)) none none,
       mkRow (some "A") (some 3) (some (4/10)) (some (4/10)) none none] 2).vol_p = none ∧
    (featureRowAt { z_window := 3, vol_window := 3, range_window := 3 } false false
      [mkRow (some "A") (some 0) (some (1/10)) (some (1/10)) none none,
       mkRow (some "A") (some 1) (some (2/10)) (some (2/10)) none none,
       mkRow (some "A") (some 2) (some (3/10)) (some (3/10)) none none,
       mkRow (some "A") (some 3) (some (4/10)) (some (4/10)) none none] 3).vol_p =
      some 0 := by
  have hm1 : mid (some (1/10)) (some (1/10)) = some (1/10) := by
    norm_num [mid, hasBook, normalizePriceToProb, optAdd]
  have hm2 : mid (some (2/10)) (some (2/10)) = some (2/10) := by
    norm_num [mid, hasBook, normalizePriceToProb, optAdd]
  have hm3 : mid (some (3/10)) (some (3/10)) = some (3/10) := by
    norm_num [mid, hasBook, normalizePriceToProb, optAdd]
  have hm4 : mid (some (4/10)) (some (4/10)) = some (4/10) := by
    norm_num [mid, hasBook, normalizePriceToProb, optAdd]
  have hp : pSeries [mkRow (some "A") (some 0) (some (1/10)) (some (1/10)) none none,
      mkRow (some "A") (some 1) (some (2/10)) (some (2/10)) none none,
      mkRow (some "A") (some 2) (some (3/10)) (some (3/10)) none none,
      mkRow (some "A") (some 3) (some (4/10)) (some (4/10)) none none] =
      [some (1/10), some (2/10), some (3/10), some (4/10)] := by
    simp only [pSeries, mkRow, List.map_cons, List.map_nil, hm1, hm2, hm3, hm4]
    rfl
  have hx : ∀ j, j < ([mkRow (some "A") (some 0) (some (1/10)) (some (1/10)) none none,
      mkRow (some "A") (some 1) (some (2/10)) (some (2/10)) none none,
      mkRow (some "A") (some 2) (some (3/10)) (some (3/10)) none none,
      mkRow (some "A") (some 3) (some (4/10)) (some (4/10)) none none] : List Row).length →
      getC (pSeries [mkRow (some "A") (some 0) (some (1/10)) (some (1/10)) none none,
        mkRow (some "A") (some 1) (some (2/10)) (some (2/10)) none none,
        mkRow (some "A") (some 2) (some (3/10)) (some (3/10)) none none,
        mkRow (some "A") (some 3) (some (4/10)) (some (4/10)) none none]) j =
        some (((j : ℚ) + 1) / 10) := by
    intro j hj
    have hj4 : j < 4 := by simpa using hj
    rw [hp]
    interval_cases j <;> norm_num [getC]
  have h1 := claim_C2 { z_window := 3, vol_window := 3, range_window := 3 }
    false false _ (fun j => ((j : ℚ) + 1) / 10) hx 1 (by norm_num)
  have h2 := claim_C2 { z_window := 3, vol_window := 3, range_window := 3 }
    false false _ (fun j => ((j : ℚ) + 1) / 10) hx 2 (by norm_num)
  have h3 := claim_C2 { z_window := 3, vol_window := 3, range_window := 3 }
    false false _ (fun j => ((j : ℚ) + 1) / 10) hx 3 (by norm_num)
  refine ⟨h1.2.2.1 (by norm_num), ?_, ?_, h2.2.2.2.2.2.1 (by norm_num), ?_⟩
  · have hq : sampleVar ((List.range' (2 + 1 - 3) 3).map
        (fun j => ((j : ℚ) + 1) / 10)) = some (1/100) := by
      norm_num [List.range', sampleVar, listMean]
    have hz := h2.2.2.2.2.1 (1/100) (by norm_num) (by norm_num) hq
    rw [hz, if_neg (by norm_num)]
    norm_num [List.range', listMean]
  · obtain ⟨mx, mn, hmx, hmn, hr⟩ := h2.2.1 (by norm_num) (by norm_num)
    have hmx' : listMaxQ ((List.range' (2 + 1 - 3) 3).map
        (fun j => ((j : ℚ) + 1) / 10)) = some (3/10) := by
      norm_num [List.range', listMaxQ, max_def]
    have hmn' : listMinQ ((List.range' (2 + 1 - 3) 3).map
        (fun j => ((j : ℚ) + 1) / 10)) = some (1/10) := by
      norm_num [List.range', listMinQ, min_def]
    have hmx2 : (3/10 : ℚ) = mx := Option.some_inj.mp (hmx'.symm.trans hmx)
    have hmn2 : (1/10 : ℚ) = mn := Option.some_inj.mp (hmn'.symm.trans hmn)
    rw [hr, ← hmx2, ← hmn2]
    norm_num
  · have hv := h3.2.2.2.2.2.2 (by norm_num) (by norm_num)
    rw [hv]
    norm_num [List.range', sampleVar, listMean, Real.sqrt_zero]

/-! ## Stable sort lemmas -/

theorem sInsert_perm {α : Type} (le : α → α → Bool) (x : α) (l : List α) :
    List.Perm (sInsert le x l) (x :: l) := by
  induction l with
  | nil => exact List.Perm.refl _
  | cons y ys ih =>
    unfold sInsert
    by_cases h : le x y = true
    · rw [if_pos h]
    · rw [if_neg h]
      exact (ih.cons y).trans (List.Perm.swap x y ys)

theorem stableSort_perm {α : Type} (le : α → α → Bool) (l : List α) :
    List.Perm (stableSort le l) l := by
  induction l with
  | nil => exact List.Perm.refl _
  | cons x xs ih => exact (sInsert_perm le x (stableSort le xs)).trans (ih.cons x)

theorem sInsert_sorted {α : Type} {le : α → α → Bool}
    (htot : ∀ a b, le a b = true ∨ le b a = true)
    (htr : ∀ a b c, le a b = true → le b c = true → le a c = true)
    (x : α) {l : List α} (hs : SortedB le l) : SortedB le (sInsert le x l) := by
  induction l with
  | nil => exact List.pairwise_singleton _ _
  | cons y ys ih =>
    rcases List.pairwise_cons.mp hs with ⟨hy, hys⟩
    unfold sInsert
    by_cases h : le x y = true
    · rw [if_pos h]
      refine List.pairwise_cons.mpr ⟨?_, hs⟩
      intro b hb
      rcases List.mem_cons.mp hb with rfl | hb2
      · exact h
      · exact htr _ _ _ h (hy b hb2)
    · rw [if_neg h]
      have hyx : le y x = true := (htot x y).resolve_left h
      refine List.pairwise_cons.mpr ⟨?_, ih hys⟩
      intro b hb
      have hb' : b ∈ x :: ys := (sInsert_perm le x ys).mem_iff.mp hb
      rcases List.mem_cons.mp hb' with rfl | hb2
      · exact hyx
      · exact hy b hb2

theorem stableSort_sorted {α : Type} {le : α → α → Bool}
    (htot : ∀ a b, le a b = true ∨ le b a = true)
    (htr : ∀ a b c, le a b = true → le b c = true → le a c = true)
    (l : List α) : SortedB le (stableSort le l) := by
  induction l with
  | nil => exact List.Pairwise.nil
  | cons x xs ih => exact sInsert_sorted htot htr x ih

theorem stableSort_of_sorted {α : Type} {le : α → α → Bool} :
    ∀ {l : List α}, SortedB le l → stableSort le l = l := by
  intro l
  induction l with
  | nil => intro _; rfl
  | cons x xs ih =>
    intro hs
    rcases List.pairwise_cons.mp hs with ⟨hx, hxs⟩
    show sInsert le x (stableSort le xs) = x :: xs
    rw [ih hxs]
    cases xs with
    | nil => rfl
    | cons y ys =>
      show (if le x y = true then x :: y :: ys else y :: sInsert le x ys) = _
      rw [if_pos (hx y (List.mem_cons_self _ _))]

theorem sInsert_eq_cons {α : Type} {le : α → α → Bool} {x : α} {l : List α}
    (h : ∀ z ∈ l, le x z = true) : sInsert le x l = x :: l := by
  cases l with
  | nil => rfl
  | cons y ys =>
    show (if le x y = true then x :: y :: ys else y :: sInsert le x ys) = _
    rw [if_pos (h y (List.mem_cons_self _ _))]

theorem sInsert_cons_pos {α : Type} {le : α → α → Bool} {x y : α}
    (ys : List α) (h : le x y = true) :
    sInsert le x (y :: ys) = x :: y :: ys := by
  show (if le x y = true then x :: y :: ys else y :: sInsert le x ys) = _
  rw [if_pos h]

theorem sInsert_cons_neg {α : Type} {le : α → α → Bool} {x y : α}
    (ys : List α) (h : ¬ le x y = true) :
    sInsert le x (y :: ys) = y :: sInsert le x ys := by
  show (if le x y = true then x :: y :: ys else y :: sInsert le x ys) = _
  rw [if_neg h]

theorem filter_sInsert {α : Type} {le : α → α → Bool}
    (htr : ∀ a b c, le a b = true → le b c = true → le a c = true)
    (p : α → Bool) (x : α) :
    ∀ {l : List α}, SortedB le l →
      (sInsert le x l).filter p =
        if p x then sInsert le x (l.filter p) else l.filter p := by
  intro l
  induction l with
  | nil =>
    intro _
    by_cases hp : p x = true
    · rw [if_pos hp]
      show [x].filter p = _
      rw [List.filter_cons_of_pos hp]
      rfl
    · rw [if_neg hp]
      show [x].filter p = _
      rw [List.filter_cons_of_neg hp]
  | cons y ys ih =>
    intro hs
    rcases List.pairwise_cons.mp hs with ⟨hy, hys⟩
    by_cases h : le x y = true
    · rw [sInsert_cons_pos ys h]
      by_cases hp : p x = true
      · rw [if_pos hp, List.filter_cons_of_pos hp]
        refine (sInsert_eq_cons ?_).symm
        intro z hz
        rcases List.mem_cons.mp (List.mem_of_mem_filter hz) with rfl | hz2
        · exact h
        · exact htr _ _ _ h (hy z hz2)
      · rw [if_neg hp, List.filter_cons_of_neg hp]
    · rw [sInsert_cons_neg ys h]
      by_cases hpy : p y = true
      · rw [List.filter_cons_of_pos hpy, ih hys]
        by_cases hp : p x = true
        · simp only [if_pos hp, List.filter_cons_of_pos hpy]
          rw [sInsert_cons_neg (ys.filter p) h]
        · simp only [if_neg hp, List.filter_cons_of_pos hpy]
      · rw [List.filter_cons_of_neg hpy, ih hys]
        by_cases hp : p x = true
        · simp only [if_pos hp, List.filter_cons_of_neg hpy]
        · simp only [if_neg hp, List.filter_cons_of_neg hpy]

theorem filter_stableSort {α : Type} {le : α → α → Bool}
    (htot : ∀ a b, le a b = true ∨ le b a = true)
    (htr : ∀ a b c, le a b = true → le b c = true → le a c = true)
    (p : α → Bool) (l : List α) :
    (stableSort le l).filter p = stableSort le (l.filter p) := by
  induction l with
  | nil => rfl
  | cons x xs ih =>
    show (sInsert le x (stableSort le xs)).filter p = stableSort le ((x :: xs).filter p)
    rw [filter_sInsert htr p x (stableSort_sorted htot htr xs), ih]
    by_cases hp : p x = true
    · rw [if_pos hp, List.filter_cons_of_pos hp]
      rfl
    · rw [if_neg hp, List.filter_cons_of_neg hp]

theorem stableSort_map {α β : Type} (le : α → α → Bool) (le' : β → β → Bool)
    (f : α → β) (hf : ∀ a b, le' (f a) (f b) = le a b) (l : List α) :
    stableSort le' (l.map f) = (stableSort le l).map f := by
  have hins : ∀ (x : α) (m : List α),
      sInsert le' (f x) (m.map f) = (sInsert le x m).map f := by
    intro x m
    induction m with
    | nil => rfl
    | cons y ys ihm =>
      by_cases h : le x y = true
      · rw [List.map_cons, sInsert_cons_pos (ys.map f) (by rw [hf]; exact h),
          sInsert_cons_pos ys h]
        rfl
      · rw [List.map_cons, sInsert_cons_neg (ys.map f) (by rw [hf]; exact h),
          sInsert_cons_neg ys h, List.map_cons, ihm]
  induction l with
  | nil => rfl
  | cons x xs ih =>
    show sInsert le' (f x) (stableSort le' (xs.map f)) =
      (sInsert le x (stableSort le xs)).map f
    rw [ih, hins]

/-! ## Order properties of the sort key -/

theorem oLe_total {α : Type} [LinearOrder α] (a b : Option α) :
    oLe a b = true ∨ oLe b a = true := by
  cases a with
  | none =>
    cases b with
    | none => exact Or.inl rfl
    | some b => exact Or.inr rfl
  | some a =>
    cases b with
    | none => exact Or.inl rfl
    | some b =>
      simp only [oLe, decide_eq_true_eq]
      exact le_total a b

theorem oLe_trans {α : Type} [LinearOrder α] {a b c : Option α}
    (hab : oLe a b = true) (hbc : oLe b c = true) : oLe a c = true := by
  rcases a with _ | a <;> rcases b with _ | b <;> rcases c with _ | c
  · rfl
  · simp [oLe] at hbc
  · simp [oLe] at hab
  · simp [oLe] at hab
  · rfl
  · simp [oLe] at hbc
  · rfl
  · simp only [oLe, decide_eq_true_eq] at hab hbc ⊢
    exact le_trans hab hbc

theorem oLe_refl {α : Type} [LinearOrder α] (a : Option α) : oLe a a = true := by
  cases a with
  | none => rfl
  | some a => simp [oLe]

theorem oLt_trans {α : Type} [LinearOrder α] {a b c : Option α}
    (hab : oLt a b = true) (hbc : oLt b c = true) : oLt a c = true := by
  rcases a with _ | a <;> rcases b with _ | b <;> rcases c with _ | c
  · simp [oLt] at hab
  · simp [oLt] at hab
  · simp [oLt] at hab
  · simp [oLt] at hab
  · simp [oLt] at hbc
  · simp [oLt] at hbc
  · rfl
  · simp only [oLt, decide_eq_true_eq] at hab hbc ⊢
    exact lt_trans hab hbc

theorem oLt_or_oLt_of_ne {α : Type} [LinearOrder α] {a b : Option α}
    (h : a ≠ b) : oLt a b = true ∨ oLt b a = true := by
  cases a with
  | none =>
    cases b with
    | none => exact absurd rfl h
    | some b => exact Or.inr rfl
  | some a =>
    cases b with
    | none => exact Or.inl rfl
    | some b =>
      simp only [oLt, decide_eq_true_eq]
      exact lt_or_gt_of_ne (fun he => h (he ▸ rfl))

theorem rowLe_total (r s : Row) : rowLe r s = true ∨ rowLe s r = true := by
  unfold rowLe
  by_cases he : r.ticker = s.ticker
  · rcases oLe_total (toNumeric r.timestamp) (toNumeric s.timestamp) with h | h
    · left; simp [he, h]
    · right; simp [he.symm, h]
  · rcases oLt_or_oLt_of_ne he with h | h
    · left; simp [h]
    · right; simp [h]

theorem rowLe_trans (a b c : Row) (hab : rowLe a b = true)
    (hbc : rowLe b c = true) : rowLe a c = true := by
  unfold rowLe at hab hbc ⊢
  simp only [Bool.or_eq_true, Bool.and_eq_true, decide_eq_true_eq] at hab hbc ⊢
  rcases hab with h1 | ⟨he1, hle1⟩ <;> rcases hbc with h2 | ⟨he2, hle2⟩
  · exact Or.inl (oLt_trans h1 h2)
  · exact Or.inl (by rw [← he2]; exact h1)
  · exact Or.inl (by rw [he1]; exact h2)
  · exact Or.inr ⟨he1.trans he2, oLe_trans hle1 hle2⟩

theorem rowLe_of_eq_key {a b : Row} (ht : a.ticker = b.ticker)
    (hts : a.timestamp = b.timestamp) : rowLe a b = true := by
  unfold rowLe
  simp [ht, hts, oLe_refl]

/-! ## Structure of the orchestrator's output -/

theorem range_map_getD {β : Type} (l : List β) (d : β) :
    (List.range l.length).map (fun i => l.getD i d) = l := by
  refine List.ext_getElem?_iff.mpr fun k => ?_
  by_cases hk : k < l.length
  · rw [List.getElem?_map, List.getElem?_range hk]
    show some (l.getD k d) = l[k]?
    rw [List.getD_eq_getElem?_getD, List.getElem?_eq_getElem hk]
    rfl
  · rw [List.getElem?_map, List.getElem?_eq_none (by simpa using hk),
      List.getElem?_eq_none (le_of_not_lt hk)]
    rfl

theorem computeGroup_length (cfg : IndicatorConfig) (hv ho : Bool) (g : List Row) :
    (computeGroup cfg hv ho g).length = g.length := by
  simp [computeGroup]

theorem computeGroup_getElem? (cfg : IndicatorConfig) (hv ho : Bool)
    (g : List Row) {i : ℕ} (hi : i < g.length) :
    (computeGroup cfg hv ho g)[i]? = some (featureRowAt cfg hv ho g i) := by
  unfold computeGroup
  rw [List.getElem?_map, List.getElem?_range hi]
  rfl

theorem computeGroup_map_base (cfg : IndicatorConfig) (hv ho : Bool) (g : List Row) :
    (computeGroup cfg hv ho g).map FeatureRow.base = g := by
  unfold computeGroup
  rw [List.map_map]
  exact range_map_getD g defaultRow

theorem base_mem_of_mem_computeGroup {cfg : IndicatorConfig} {hv ho : Bool}
    {g : List Row} {fr : FeatureRow} (h : fr ∈ computeGroup cfg hv ho g) :
    fr.base ∈ g := by
  have : fr.base ∈ (computeGroup cfg hv ho g).map FeatureRow.base :=
    List.mem_map_of_mem _ h
  rwa [computeGroup_map_base] at this

theorem ticker_of_mem_groupRows {rows : List Row} {t : String} {r : Row}
    (h : r ∈ groupRows rows t) : r.ticker = some t := by
  have := List.of_mem_filter h
  simpa using this

theorem groupRows_stableSort (rows : List Row) (t : String) :
    groupRows (stableSort rowLe rows) t = stableSort rowLe (groupRows rows t) :=
  filter_stableSort rowLe_total rowLe_trans _ rows

theorem mem_tickersOf {rows : List Row} {A : String} :
    A ∈ tickersOf rows ↔ ∃ r ∈ rows, r.ticker = some A := by
  unfold tickersOf
  rw [List.mem_dedup, List.mem_filterMap]

theorem groupRows_eq_nil_of_not_mem_tickers {rows : List Row} {A : String}
    (h : A ∉ tickersOf rows) : groupRows rows A = [] := by
  unfold groupRows
  rw [List.filter_eq_nil_iff]
  intro r hr
  simp only [decide_eq_true_eq]
  intro hA
  exact h (mem_tickersOf.mpr ⟨r, hr, hA⟩)

theorem addIndicators_ok_eq {cfg : IndicatorConfig} {df : DataFrame}
    {out : List FeatureRow} (hok : addIndicators cfg df = Except.ok out) :
    out = ((tickersOf (stableSort rowLe df.rows)).map
      (fun t => computeGroup cfg (df.cols.contains "volume")
        (df.cols.contains "open_interest")
        (groupRows (stableSort rowLe df.rows) t))).flatten := by
  unfold addIndicators at hok
  by_cases h : (requiredCols.filter (fun c => ! df.cols.contains c)).isEmpty
  · rw [if_pos h] at hok
    exact ((Except.ok.injEq _ _).mp hok).symm
  · rw [if_neg h] at hok
    exact absurd hok (by simp)

theorem filter_flatten_single {β : Type} (p : β → Bool) (A : String)
    (F : String → List β) :
    ∀ (keys : List String), keys.Nodup →
      (∀ t, t ∈ keys → t ≠ A → (F t).filter p = []) →
      ((F A).filter p = F A) →
      ((keys.map F).flatten).filter p = if A ∈ keys then F A else [] := by
  intro keys
  induction keys with
  | nil => intro _ _ _; simp
  | cons t ks ih =>
    intro hnd hF hFA
    rcases List.nodup_cons.mp hnd with ⟨htks, hndks⟩
    rw [List.map_cons, List.flatten_cons, List.filter_append]
    by_cases hA : t = A
    · subst hA
      rw [hFA]
      have htail : ((ks.map F).flatten).filter p = [] := by
        rw [List.filter_flatten]
        have : ks.map (fun t' => (F t').filter p) = ks.map (fun _ => []) :=
          List.map_congr_left (fun t' ht' =>
            hF t' (List.mem_cons_of_mem _ ht') (fun he => htks (he ▸ ht')))
        rw [List.map_map]
        show (ks.map ((List.filter p) ∘ F)).flatten = []
        have h2 : ks.map ((List.filter p) ∘ F) = ks.map (fun _ => ([] : List β)) := this
        rw [h2]
        simp
      rw [htail, if_pos (List.mem_cons_self _ _), List.append_nil]
    · rw [hF t (List.mem_cons_self _ _) hA, List.nil_append,
        ih hndks (fun t' ht' => hF t' (List.mem_cons_of_mem _ ht')) hFA]
      by_cases hAks : A ∈ ks
      · rw [if_pos hAks, if_pos (List.mem_cons_of_mem _ hAks)]
      · rw [if_neg hAks, if_neg (fun hmem =>
          (List.mem_cons.mp hmem).elim (fun he => hA he.symm) hAks)]

theorem groupOut_addIndicators {cfg : IndicatorConfig} {df : DataFrame}
    {out : List FeatureRow} (A : String)
    (hok : addIndicators cfg df = Except.ok out) :
    groupOut out A = computeGroup cfg (df.cols.contains "volume")
      (df.cols.contains "open_interest")
      (stableSort rowLe (groupRows df.rows A)) := by
  rw [addIndicators_ok_eq hok]
  unfold groupOut
  rw [filter_flatten_single (fun fr => decide (fr.base.ticker = some A)) A
    (fun t => computeGroup cfg (df.cols.contains "volume")
      (df.cols.contains "open_interest")
      (groupRows (stableSort rowLe df.rows) t))
    (tickersOf (stableSort rowLe df.rows))
    (by unfold tickersOf; exact List.nodup_dedup _) ?hne ?hself]
  case hne =>
    intro t ht htA
    rw [List.filter_eq_nil_iff]
    intro fr hfr
    have hbase := base_mem_of_mem_computeGroup hfr
    have := ticker_of_mem_groupRows hbase
    simp [this, htA]
  case hself =>
    rw [List.filter_eq_self]
    intro fr hfr
    have hbase := base_mem_of_mem_computeGroup hfr
    have := ticker_of_mem_groupRows hbase
    simp [this]
  by_cases hA : A ∈ tickersOf (stableSort rowLe df.rows)
  · rw [if_pos hA, groupRows_stableSort]
  · rw [if_neg hA]
    have h1 : groupRows df.rows A = [] := by
      apply groupRows_eq_nil_of_not_mem_tickers
      intro hmem
      apply hA
      rcases mem_tickersOf.mp hmem with ⟨r, hr, hrt⟩
      exact mem_tickersOf.mpr ⟨r, (stableSort_perm rowLe df.rows).mem_iff.mpr hr, hrt⟩
    rw [h1]
    rfl

/-! ## Causality: a derived row depends only on rows at indices ≤ i -/

theorem getC_eq_of_take_eq {xs ys : List Cell} {n k : ℕ}
    (h : xs.take n = ys.take n) (hk : k < n) : getC xs k = getC ys k := by
  unfold getC
  rw [List.getD_eq_getElem?_getD, List.getD_eq_getElem?_getD]
  have h1 : xs[k]? = (xs.take n)[k]? := by
    rw [List.getElem?_take, if_pos hk]
  have h2 : ys[k]? = (ys.take n)[k]? := by
    rw [List.getElem?_take, if_pos hk]
  rw [h1, h2, h]

theorem winAt_congr {xs ys : List Cell} {w i : ℕ}
    (h : xs.take (i + 1) = ys.take (i + 1)) : winAt xs w i = winAt ys w i := by
  rw [winAt_take, h, ← winAt_take]

theorem shiftAt_congr {xs ys : List Cell} {lag i n : ℕ}
    (h : xs.take n = ys.take n) (hi : i < n) :
    shiftAt xs lag i = shiftAt ys lag i := by
  unfold shiftAt
  by_cases hl : i < lag
  · rw [if_pos hl, if_pos hl]
  · rw [if_neg hl, if_neg hl]
    exact getC_eq_of_take_eq h (by omega)

theorem ewmaAt_congr {span : ℕ} {xs ys : List Cell} {i : ℕ}
    (h : xs.take (i + 1) = ys.take (i + 1)) :
    ewmaAt span xs i = ewmaAt span ys i := by
  unfold ewmaAt
  rw [h]

theorem diffAt_congr_take {xs ys : List Cell} {i : ℕ}
    (h : xs.take (i + 1) = ys.take (i + 1)) : diffAt xs i = diffAt ys i :=
  diffAt_congr (fun j hj => getC_eq_of_take_eq h (by omega))

theorem diffSeries_take_congr {xs ys : List Cell} {n : ℕ}
    (h : xs.take n = ys.take n) (h1 : n ≤ xs.length) (h2 : n ≤ ys.length) :
    (diffSeries xs).take n = (diffSeries ys).take n := by
  refine List.ext_getElem?_iff.mpr fun k => ?_
  by_cases hk : k < n
  · rw [List.getElem?_take, if_pos hk, List.getElem?_take, if_pos hk]
    unfold diffSeries
    rw [List.getElem?_map, List.getElem?_range (by omega),
      List.getElem?_map, List.getElem?_range (by omega)]
    show some (diffAt xs k) = some (diffAt ys k)
    rw [diffAt_congr (fun j hj => getC_eq_of_take_eq h (by omega))]
  · rw [List.getElem?_take, if_neg hk, List.getElem?_take, if_neg hk]

theorem zscoreAt_congr {xs ys : List Cell} {w i : ℕ}
    (h : xs.take (i + 1) = ys.take (i + 1)) : zscoreAt xs w i = zscoreAt ys w i := by
  unfold zscoreAt rollMeanAt rollVarAt
  rw [winAt_congr h, getC_eq_of_take_eq h (Nat.lt_succ_self i)]

theorem rollStdAt_congr {xs ys : List Cell} {w i : ℕ}
    (h : xs.take (i + 1) = ys.take (i + 1)) : rollStdAt xs w i = rollStdAt ys w i := by
  unfold rollStdAt rollVarAt
  rw [winAt_congr h]

theorem rangeAt_congr {xs ys : List Cell} {w i : ℕ}
    (h : xs.take (i + 1) = ys.take (i + 1)) : rangeAt xs w i = rangeAt ys w i := by
  unfold rangeAt rollMaxAt rollMinAt
  rw [winAt_congr h]

/-- The causality core: row `i` of `_compute_group_indicators` is fully
determined by the partition's rows at indices `≤ i`. -/
theorem featureRowAt_causal (cfg : IndicatorConfig) (hv ho : Bool)
    {g1 g2 : List Row} {i : ℕ} (h : g1.take (i + 1) = g2.take (i + 1))
    (h1 : i < g1.length) (h2 : i < g2.length) :
    featureRowAt cfg hv ho g1 i = featureRowAt cfg hv ho g2 i := by
  have hbase : g1.getD i defaultRow = g2.getD i defaultRow := by
    rw [List.getD_eq_getElem?_getD, List.getD_eq_getElem?_getD]
    have e1 : g1[i]? = (g1.take (i + 1))[i]? := by
      rw [List.getElem?_take, if_pos (Nat.lt_succ_self i)]
    have e2 : g2[i]? = (g2.take (i + 1))[i]? := by
      rw [List.getElem?_take, if_pos (Nat.lt_succ_self i)]
    rw [e1, e2, h]
  have hp : (pSeries g1).take (i + 1) = (pSeries g2).take (i + 1) := by
    unfold pSeries
    rw [← List.map_take, ← List.map_take, h]
  have hvs : (volSeries hv g1).take (i + 1) = (volSeries hv g2).take (i + 1) := by
    unfold volSeries
    rw [← List.map_take, ← List.map_take, h]
  have hos : (oiSeries ho g1).take (i + 1) = (oiSeries ho g2).take (i + 1) := by
    unfold oiSeries
    rw [← List.map_take, ← List.map_take, h]
  have hd : (diffSeries (pSeries g1)).take (i + 1) =
      (diffSeries (pSeries g2)).take (i + 1) :=
    diffSeries_take_congr hp (by rw [pSeries_length]; omega)
      (by rw [pSeries_length]; omega)
  have hgp : getC (pSeries g1) i = getC (pSeries g2) i :=
    getC_eq_of_take_eq hp (Nat.lt_succ_self i)
  ext : 1
  · rw [frAt_base, frAt_base, hbase]
  · rw [frAt_has_yes_book, frAt_has_yes_book, hbase]
  · rw [frAt_has_no_book, frAt_has_no_book, hbase]
  · rw [frAt_mid_yes, frAt_mid_yes, hbase]
  · rw [frAt_mid_no, frAt_mid_no, hbase]
  · rw [frAt_spread_yes, frAt_spread_yes, hbase]
  · rw [frAt_spread_no, frAt_spread_no, hbase]
  · rw [frAt_rel_spread_yes, frAt_rel_spread_yes, hbase]
  · rw [frAt_p_yes, frAt_p_yes, hbase]
  · rw [frAt_overround, frAt_overround, hbase]
  · rw [frAt_tte_hours, frAt_tte_hours, hbase]
  · rw [frAt_volume, frAt_volume,
      getC_eq_of_take_eq hvs (Nat.lt_succ_self i)]
  · rw [frAt_open_interest, frAt_open_interest,
      getC_eq_of_take_eq hos (Nat.lt_succ_self i)]
  · rw [frAt_d_volume, frAt_d_volume,
      diffAt_congr (fun j hj => getC_eq_of_take_eq hvs (by omega))]
  · rw [frAt_d_open_interest, frAt_d_open_interest,
      diffAt_congr (fun j hj => getC_eq_of_take_eq hos (by omega))]
  · rw [frAt_delta_p, frAt_delta_p, diffAt_congr_take hp]
  · rw [frAt_z_p, frAt_z_p, zscoreAt_congr hp]
  · rw [frAt_vol_p, frAt_vol_p, rollStdAt_congr hd]
  · rw [frAt_range_p, frAt_range_p, rangeAt_congr hp]
  · rw [frAt_momentum_p, frAt_momentum_p, hgp,
      shiftAt_congr hp (Nat.lt_succ_self i)]
  · rw [frAt_ema_fast, frAt_ema_fast, ewmaAt_congr hp]
  · rw [frAt_ema_slow, frAt_ema_slow, ewmaAt_congr hp]
  · rw [frAt_ema_diff, frAt_ema_diff, ewmaAt_congr hp, ewmaAt_congr hp]
  · rw [frAt_accel_p, frAt_accel_p, diffAt_congr_take hd]
  · rw [frAt_near_bounds, frAt_near_bounds, hgp]
  · rw [frAt_is_unchanged, frAt_is_unchanged, hgp,
      shiftAt_congr hp (Nat.lt_succ_self i)]

/-! ## C3: noninterference across partitions and across future rows -/

/-- **C3.** Two-run noninterference: (i) if two frames with the same
columns agree on the subsequence of rows of ticker `A`, every derived
value on `A`'s output rows is identical, however rows of other tickers
are altered, added or removed; (ii) if the two sorted `A`-partitions
agree at indices `≤ i`, the derived output row at index `i` of the
`A`-partition is identical: no derived value reads later rows or other
partitions. -/
theorem claim_C3 :
    (∀ (cfg : IndicatorConfig) (df1 df2 : DataFrame) (A : String)
      (out1 out2 : List FeatureRow),
      df1.cols = df2.cols →
      groupRows df1.rows A = groupRows df2.rows A →
      addIndicators cfg df1 = Except.ok out1 →
      addIndicators cfg df2 = Except.ok out2 →
      groupOut out1 A = groupOut out2 A) ∧
    (∀ (cfg : IndicatorConfig) (df1 df2 : DataFrame) (A : String)
      (out1 out2 : List FeatureRow) (i : ℕ),
      df1.cols = df2.cols →
      (stableSort rowLe (groupRows df1.rows A)).take (i + 1) =
        (stableSort rowLe (groupRows df2.rows A)).take (i + 1) →
      i < (groupRows df1.rows A).length →
      i < (groupRows df2.rows A).length →
      addIndicators cfg df1 = Except.ok out1 →
      addIndicators cfg df2 = Except.ok out2 →
      (groupOut out1 A)[i]? = (groupOut out2 A)[i]?) := by
  constructor
  · intro cfg df1 df2 A out1 out2 hcols hgrp hok1 hok2
    rw [groupOut_addIndicators A hok1, groupOut_addIndicators A hok2,
      hcols, hgrp]
  · intro cfg df1 df2 A out1 out2 i hcols htake hl1 hl2 hok1 hok2
    rw [groupOut_addIndicators A hok1, groupOut_addIndicators A hok2, hcols]
    have hlen1 : i < (stableSort rowLe (groupRows df1.rows A)).length := by
      rw [(stableSort_perm rowLe _).length_eq]
      exact hl1
    have hlen2 : i < (stableSort rowLe (groupRows df2.rows A)).length := by
      rw [(stableSort_perm rowLe _).length_eq]
      exact hl2
    rw [computeGroup_getElem? _ _ _ _ hlen1, computeGroup_getElem? _ _ _ _ hlen2,
      featureRowAt_causal _ _ _ htake hlen1 hlen2]

/-- Witness for C3: frame 1 holds tickers A and B, frame 2 alters B's
rows and appends a C row while leaving A's rows untouched; A's derived
rows agree, and agree row-by-row under the prefix condition. -/
theorem claim_C3_witness :
    groupOut (((tickersOf (stableSort rowLe (mkFrame
      [mkRow (some "A") (some 1) (some 40) (some 60) none none,
       mkRow (some "B") (some 0) (some 10) (some 20) none none,
       mkRow (some "A") (some 0) (some 30) (some 50) none none]).rows)).map
        (fun t => computeGroup defaultConfig false false
          (groupRows (stableSort rowLe (mkFrame
            [mkRow (some "A") (some 1) (some 40) (some 60) none none,
             mkRow (some "B") (some 0) (some 10) (some 20) none none,
             mkRow (some "A") (some 0) (some 30) (some 50) none none]).rows) t))).flatten)
      "A" =
    groupOut (((tickersOf (stableSort rowLe (mkFrame
      [mkRow (some "A") (some 1) (some 40) (some 60) none none,
       mkRow (some "A") (some 0) (some 30) (some 50) none none,
       mkRow (some "C") (some 5) (some 70) (some 80) none none]).rows)).map
        (fun t => computeGroup defaultConfig false false
          (groupRows (stableSort rowLe (mkFrame
            [mkRow (some "A") (some 1) (some 40) (some 60) none none,
             mkRow (some "A") (some 0) (some 30) (some 50) none none,
             mkRow (some "C") (some 5) (some 70) (some 80) none none]).rows) t))).flatten)
      "A" := by
  exact claim_C3.1 defaultConfig
    (mkFrame [mkRow (some "A") (some 1) (some 40) (some 60) none none,
      mkRow (some "B") (some 0) (some 10) (some 20) none none,
      mkRow (some "A") (some 0) (some 30) (some 50) none none])
    (mkFrame [mkRow (some "A") (some 1) (some 40) (some 60) none none,
      mkRow (some "A") (some 0) (some 30) (some 50) none none,
      mkRow (some "C") (some 5) (some 70) (some 80) none none])
    "A" _ _ rfl rfl rfl rfl

/-! ## C5: row preservation, pass-through and per-ticker ordering -/

theorem flatten_groupRows_perm :
    ∀ (keys : List String), keys.Nodup →
      ∀ (rows : List Row), (∀ r ∈ rows, ∃ t ∈ keys, r.ticker = some t) →
      List.Perm ((keys.map (fun t => groupRows rows t)).flatten) rows := by
  intro keys
  induction keys with
  | nil =>
    intro _ rows hcov
    have hnil : rows = [] := by
      cases rows with
      | nil => rfl
      | cons r rs =>
        rcases hcov r (List.mem_cons_self _ _) with ⟨t, ht, _⟩
        exact absurd ht (List.not_mem_nil t)
    rw [hnil]
    exact List.Perm.refl _
  | cons t ks ih =>
    intro hnd rows hcov
    rcases List.nodup_cons.mp hnd with ⟨htks, hndks⟩
    rw [List.map_cons, List.flatten_cons]
    have hswap : ks.map (fun t' => groupRows rows t') =
        ks.map (fun t' => groupRows
          (rows.filter (fun r => ! decide (r.ticker = some t))) t') := by
      refine List.map_congr_left fun t' ht' => ?_
      have htt' : t' ≠ t := fun he => htks (he ▸ ht')
      show rows.filter _ = (rows.filter _).filter _
      rw [List.filter_filter]
      refine (List.filter_congr fun r _ => ?_).symm
      by_cases hr : r.ticker = some t'
      · simp [hr, htt']
      · simp [hr]
    rw [hswap]
    have hcov' : ∀ r ∈ rows.filter (fun r => ! decide (r.ticker = some t)),
        ∃ t' ∈ ks, r.ticker = some t' := by
      intro r hr
      have hmem := List.mem_of_mem_filter hr
      have hnt : ¬ (r.ticker = some t) := by
        have := List.of_mem_filter hr
        simpa using this
      rcases hcov r hmem with ⟨t'', ht'', he⟩
      rcases List.mem_cons.mp ht'' with rfl | h2
      · exact absurd he hnt
      · exact ⟨t'', h2, he⟩
    have hperm := ih hndks _ hcov'
    refine (hperm.append_left (groupRows rows t)).trans ?_
    exact List.filter_append_perm _ rows

theorem tsLe_of_rowLe_same_ticker {a b : Row} {t : String}
    (ha : a.ticker = some t) (hb : b.ticker = some t)
    (h : rowLe a b = true) :
    oLe (toNumeric a.timestamp) (toNumeric b.timestamp) = true := by
  unfold rowLe at h
  rw [ha, hb] at h
  simp only [Bool.or_eq_true, Bool.and_eq_true, decide_eq_true_eq] at h
  rcases h with h | ⟨_, h2⟩
  · exfalso
    simp only [oLt, decide_eq_true_eq] at h
    exact absurd h (lt_irrefl t)
  · exact h2

/-- **C5 (amended).** Provided every row's ticker is present (rows with
a missing ticker are dropped by `groupby` — see the counterexample), the
output of `add_indicators` carries exactly one row per input row, with
the input-schema part of each output row passing through unchanged (as a
permutation pairing output base rows with input rows), and within each
ticker the output rows are in non-decreasing timestamp order (missing
timestamps last) with ties preserving the original relative input
order. -/
theorem claim_C5 (cfg : IndicatorConfig) (df : DataFrame)
    (out : List FeatureRow)
    (hok : addIndicators cfg df = Except.ok out)
    (htick : ∀ r ∈ df.rows, r.ticker ≠ none) :
    List.Perm (out.map FeatureRow.base) df.rows ∧
    out.length = df.rows.length ∧
    (∀ t : String,
      SortedB (fun a b : Row => oLe (toNumeric a.timestamp) (toNumeric b.timestamp))
        ((groupOut out t).map FeatureRow.base) ∧
      (∀ τ : Cell, ((groupOut out t).map FeatureRow.base).filter
          (fun r => decide (r.timestamp = τ)) =
        (groupRows df.rows t).filter (fun r => decide (r.timestamp = τ)))) := by
  have hbases : out.map FeatureRow.base =
      ((tickersOf (stableSort rowLe df.rows)).map
        (fun t => groupRows (stableSort rowLe df.rows) t)).flatten := by
    rw [addIndicators_ok_eq hok, List.map_flatten, List.map_map]
    congr 1
    refine List.map_congr_left fun t _ => ?_
    exact computeGroup_map_base _ _ _ _
  have hcov : ∀ r ∈ stableSort rowLe df.rows,
      ∃ t ∈ tickersOf (stableSort rowLe df.rows), r.ticker = some t := by
    intro r hr
    have hmem : r ∈ df.rows := (stableSort_perm rowLe df.rows).mem_iff.mp hr
    rcases Option.ne_none_iff_exists.mp (htick r hmem) with ⟨t, ht⟩
    exact ⟨t, mem_tickersOf.mpr ⟨r, hr, ht.symm⟩, ht.symm⟩
  have hperm : List.Perm (out.map FeatureRow.base) df.rows := by
    rw [hbases]
    refine (flatten_groupRows_perm _ ?_ _ hcov).trans (stableSort_perm rowLe df.rows)
    unfold tickersOf
    exact List.nodup_dedup _
  refine ⟨hperm, ?_, ?_⟩
  · have := hperm.length_eq
    rwa [List.length_map] at this
  · intro t
    have hgo : (groupOut out t).map FeatureRow.base =
        stableSort rowLe (groupRows df.rows t) := by
      rw [groupOut_addIndicators t hok, computeGroup_map_base]
    constructor
    · rw [hgo]
      have hsorted := stableSort_sorted rowLe_total rowLe_trans (groupRows df.rows t)
      refine hsorted.imp_of_mem ?_
      intro a b ha hb hab
      have ha' : a.ticker = some t := ticker_of_mem_groupRows
        ((stableSort_perm rowLe _).mem_iff.mp ha)
      have hb' : b.ticker = some t := ticker_of_mem_groupRows
        ((stableSort_perm rowLe _).mem_iff.mp hb)
      exact tsLe_of_rowLe_same_ticker ha' hb' hab
    · intro τ
      rw [hgo, filter_stableSort rowLe_total rowLe_trans]
      refine stableSort_of_sorted ?_
      refine List.pairwise_of_forall_mem_list ?_
      intro a ha b hb
      have ha2 := List.mem_of_mem_filter ha
      have hb2 := List.mem_of_mem_filter hb
      have ha3 : a.timestamp = τ := by simpa using List.of_mem_filter ha
      have hb3 : b.timestamp = τ := by simpa using List.of_mem_filter hb
      exact rowLe_of_eq_key
        ((ticker_of_mem_groupRows ha2).trans (ticker_of_mem_groupRows hb2).symm)
        (ha3.trans hb3.symm)

/-- Counterexample to C5 as stated: a frame whose single row has a
missing ticker produces an empty output — `groupby("ticker")` drops
rows with a missing group key, so a row is lost, contradicting "no row
is ever dropped, for any ticker values including missing ones". -/
theorem claim_C5_counterexample :
    addIndicators defaultConfig
      (mkFrame [mkRow none (some 0) (some 40) (some 60) none none]) =
      Except.ok [] ∧
    (mkFrame [mkRow none (some 0) (some 40) (some 60) none none]).rows.length = 1 :=
  ⟨rfl, rfl⟩

/-- Witness for C5 on a two-ticker frame with a timestamp tie inside
ticker A. -/
theorem claim_C5_witness :
    List.Perm ((runOk defaultConfig (mkFrame
      [mkRow (some "A") (some 1) none none none none,
       mkRow (some "B") (some 0) none none none none,
       mkRow (some "A") (some 0) none none none none,
       mkRow (some "A") (some 1) (some 40) (some 60) none none])).map
      FeatureRow.base)
      (mkFrame [mkRow (some "A") (some 1) none none none none,
       mkRow (some "B") (some 0) none none none none,
       mkRow (some "A") (some 0) none none none none,
       mkRow (some "A") (some 1) (some 40) (some 60) none none]).rows ∧
    (runOk defaultConfig (mkFrame
      [mkRow (some "A") (some 1) none none none none,
       mkRow (some "B") (some 0) none none none none,
       mkRow (some "A") (some 0) none none none none,
       mkRow (some "A") (some 1) (some 40) (some 60) none none])).length = 4 := by
  have h := claim_C5 defaultConfig
    (mkFrame [mkRow (some "A") (some 1) none none none none,
      mkRow (some "B") (some 0) none none none none,
      mkRow (some "A") (some 0) none none none none,
      mkRow (some "A") (some 1) (some 40) (some 60) none none])
    (runOk defaultConfig (mkFrame
      [mkRow (some "A") (some 1) none none none none,
       mkRow (some "B") (some 0) none none none none,
       mkRow (some "A") (some 0) none none none none,
       mkRow (some "A") (some 1) (some 40) (some 60) none none]))
    rfl (by decide)
  exact ⟨h.1, h.2.1⟩

/-! ## C9: idempotence of the engine on its own output -/

theorem getD_map_row {g : List Row} (f : Row → Row) {i : ℕ}
    (hi : i < g.length) :
    (g.map f).getD i defaultRow = f (g.getD i defaultRow) := by
  rw [List.getD_eq_getElem?_getD, List.getD_eq_getElem?_getD,
    List.getElem?_map, List.getElem?_eq_getElem hi]
  rfl

theorem rowOfFeature_featureRowAt (cfg : IndicatorConfig) (hv ho : Bool)
    (g : List Row) {i : ℕ} (hi : i < g.length) :
    rowOfFeature (featureRowAt cfg hv ho g i) =
      coerceRow hv ho (g.getD i defaultRow) := by
  unfold rowOfFeature coerceRow
  ext : 1
  · rfl
  · rfl
  · rfl
  · rfl
  · rfl
  · rfl
  · rfl
  · show (featureRowAt cfg hv ho g i).volume = _
    rw [frAt_volume]
    unfold volSeries
    rw [getC_map _ _ hi, ← getD_eq_getElem hi]
  · show (featureRowAt cfg hv ho g i).open_interest = _
    rw [frAt_open_interest]
    unfold oiSeries
    rw [getC_map _ _ hi, ← getD_eq_getElem hi]

theorem computeGroup_map_rowOfFeature (cfg : IndicatorConfig) (hv ho : Bool)
    (g : List Row) :
    (computeGroup cfg hv ho g).map rowOfFeature = g.map (coerceRow hv ho) := by
  unfold computeGroup
  rw [List.map_map]
  conv_rhs => rw [← range_map_getD g defaultRow, List.map_map]
  refine List.map_congr_left fun i hi => ?_
  exact rowOfFeature_featureRowAt cfg hv ho g (List.mem_range.mp hi)

theorem rowLe_coerce (hv ho : Bool) (a b : Row) :
    rowLe (coerceRow hv ho a) (coerceRow hv ho b) = rowLe a b := rfl

theorem ticker_coerce (hv ho : Bool) (r : Row) :
    (coerceRow hv ho r).ticker = r.ticker := rfl

theorem pairwise_filterMap_of {β γ : Type} {R : β → β → Prop}
    {R' : γ → γ → Prop} (f : β → Option γ)
    (h : ∀ a b, R a b → ∀ x y, f a = some x → f b = some y → R' x y) :
    ∀ {l : List β}, l.Pairwise R → (l.filterMap f).Pairwise R' := by
  intro l
  induction l with
  | nil => intro _; simp
  | cons a l ih =>
    intro hp
    rcases List.pairwise_cons.mp hp with ⟨ha, hl⟩
    rw [List.filterMap_cons]
    cases hfa : f a with
    | none => exact ih hl
    | some x =>
      refine List.pairwise_cons.mpr ⟨?_, ih hl⟩
      intro y hy
      rcases List.mem_filterMap.mp hy with ⟨b, hb, hfb⟩
      exact h a b (ha b hb) x y hfa hfb

/-- The distinct tickers of a sorted frame are strictly increasing. -/
theorem tickersOf_sorted_lt (rows : List Row)
    (hs : SortedB rowLe rows) :
    (tickersOf rows).Pairwise (fun a b => a < b) := by
  have h1 : (rows.filterMap Row.ticker).Pairwise
      (fun a b => a < b ∨ a = b) := by
    refine pairwise_filterMap_of Row.ticker ?_ hs
    intro a b hab x y hax hby
    unfold rowLe at hab
    rw [hax, hby] at hab
    simp only [Bool.or_eq_true, Bool.and_eq_true, decide_eq_true_eq] at hab
    rcases hab with h | ⟨he, _⟩
    · simp only [oLt, decide_eq_true_eq] at h
      exact Or.inl h
    · exact Or.inr (Option.some_inj.mp he)
  have h2 : (tickersOf rows).Pairwise (fun a b => a < b ∨ a = b) :=
    h1.sublist (List.dedup_sublist _)
  have h3 : (tickersOf rows).Pairwise (fun a b => a ≠ b) := by
    unfold tickersOf
    exact List.nodup_dedup _
  exact (h2.and h3).imp (fun hab => hab.1.resolve_right hab.2)

theorem filterMap_const_some {β : Type} {key : β → Option String} {t : String} :
    ∀ {l : List β}, (∀ x ∈ l, key x = some t) →
      l.filterMap key = List.replicate l.length t := by
  intro l
  induction l with
  | nil => intro _; rfl
  | cons a l ih =>
    intro h
    rw [List.filterMap_cons, h a (List.mem_cons_self _ _), ih
      (fun x hx => h x (List.mem_cons_of_mem _ hx))]
    rfl

theorem dedup_flatten_replicate (n : String → ℕ) :
    ∀ (keys : List String), keys.Nodup → (∀ t ∈ keys, n t ≠ 0) →
      ((keys.map (fun t => List.replicate (n t) t)).flatten).dedup = keys := by
  intro keys
  induction keys with
  | nil => intro _ _; rfl
  | cons t ks ih =>
    intro hnd hn
    rcases List.nodup_cons.mp hnd with ⟨htks, hndks⟩
    rw [List.map_cons, List.flatten_cons]
    have hnotmem : t ∉ (ks.map (fun t' => List.replicate (n t') t')).flatten := by
      intro hmem
      rcases List.mem_flatten.mp hmem with ⟨l, hl, htl⟩
      rcases List.mem_map.mp hl with ⟨t', ht', rfl⟩
      exact htks ((List.mem_replicate.mp htl).2 ▸ ht')
    have htail := ih hndks (fun t' ht' => hn t' (List.mem_cons_of_mem _ ht'))
    have hrep : ∀ k : ℕ,
        ((List.replicate k t ++
          (ks.map (fun t' => List.replicate (n t') t')).flatten) : List String).dedup =
        if k = 0 then ks else t :: ks := by
      intro k
      induction k with
      | zero => simpa using htail
      | succ m ihm =>
        rw [List.replicate_succ, List.cons_append]
        by_cases hm : m = 0
        · subst hm
          rw [List.dedup_cons_of_not_mem (by simpa using hnotmem)]
          rw [if_neg (Nat.succ_ne_zero 0)]
          show t :: ((ks.map (fun t' => List.replicate (n t') t')).flatten).dedup =
            t :: ks
          rw [htail]
        · have hmem : t ∈ List.replicate m t ++
              (ks.map (fun t' => List.replicate (n t') t')).flatten := by
            refine List.mem_append.mpr (Or.inl ?_)
            exact List.mem_replicate.mpr ⟨hm, rfl⟩
          rw [List.dedup_cons_of_mem hmem, ihm, if_neg hm,
            if_neg (Nat.succ_ne_zero m)]
    rw [hrep (n t), if_neg (hn t (List.mem_cons_self _ _))]

theorem pSeries_map_coerce (hv ho : Bool) (g : List Row) :
    pSeries (g.map (coerceRow hv ho)) = pSeries g := by
  unfold pSeries
  rw [List.map_map]
  rfl

theorem volSeries_map_coerce (hv ho : Bool) (g : List Row) :
    volSeries true (g.map (coerceRow hv ho)) = volSeries hv g := by
  unfold volSeries
  rw [List.map_map]
  rfl

theorem oiSeries_map_coerce (hv ho : Bool) (g : List Row) :
    oiSeries true (g.map (coerceRow hv ho)) = oiSeries ho g := by
  unfold oiSeries
  rw [List.map_map]
  rfl

/-- The derived columns only read the quote/time/coerced-counter parts
of a row, so recomputing them on the coerced rows (with both optional
columns now present) reproduces them exactly. -/
theorem derived_coerce (cfg : IndicatorConfig) (hv ho : Bool) (g : List Row)
    {i : ℕ} (hi : i < g.length) :
    derivedOf (featureRowAt cfg true true (g.map (coerceRow hv ho)) i) =
      derivedOf (featureRowAt cfg hv ho g i) := by
  have hbase : (g.map (coerceRow hv ho)).getD i defaultRow =
      coerceRow hv ho (g.getD i defaultRow) := getD_map_row _ hi
  have hp := pSeries_map_coerce hv ho g
  have hvs := volSeries_map_coerce hv ho g
  have hos := oiSeries_map_coerce hv ho g
  ext : 1
  all_goals simp only [derivedOf]
  · rw [frAt_has_yes_book, frAt_has_yes_book, hbase]; rfl
  · rw [frAt_has_no_book, frAt_has_no_book, hbase]; rfl
  · rw [frAt_mid_yes, frAt_mid_yes, hbase]; rfl
  · rw [frAt_mid_no, frAt_mid_no, hbase]; rfl
  · rw [frAt_spread_yes, frAt_spread_yes, hbase]; rfl
  · rw [frAt_spread_no, frAt_spread_no, hbase]; rfl
  · rw [frAt_rel_spread_yes, frAt_rel_spread_yes, hbase]; rfl
  · rw [frAt_p_yes, frAt_p_yes, hbase]; rfl
  · rw [frAt_overround, frAt_overround, hbase]; rfl
  · rw [frAt_tte_hours, frAt_tte_hours, hbase]; rfl
  · rw [frAt_volume, frAt_volume, hvs]
  · rw [frAt_open_interest, frAt_open_interest, hos]
  · rw [frAt_d_volume, frAt_d_volume, hvs]
  · rw [frAt_d_open_interest, frAt_d_open_interest, hos]
  · rw [frAt_delta_p, frAt_delta_p, hp]
  · rw [frAt_z_p, frAt_z_p, hp]
  · rw [frAt_vol_p, frAt_vol_p, hp]
  · rw [frAt_range_p, frAt_range_p, hp]
  · rw [frAt_momentum_p, frAt_momentum_p, hp]
  · rw [frAt_ema_fast, frAt_ema_fast, hp]
  · rw [frAt_ema_slow, frAt_ema_slow, hp]
  · rw [frAt_ema_diff, frAt_ema_diff, hp]
  · rw [frAt_accel_p, frAt_accel_p, hp]
  · rw [frAt_near_bounds, frAt_near_bounds, hp]
  · rw [frAt_is_unchanged, frAt_is_unchanged, hp]

theorem computeGroup_coerce_derived (cfg : IndicatorConfig) (hv ho : Bool)
    (g : List Row) :
    (computeGroup cfg true true (g.map (coerceRow hv ho))).map derivedOf =
      (computeGroup cfg hv ho g).map derivedOf := by
  unfold computeGroup
  rw [List.length_map, List.map_map, List.map_map]
  refine List.map_congr_left fun i hi => ?_
  exact derived_coerce cfg hv ho g (List.mem_range.mp hi)

/-- **C9.** Idempotence: running `add_indicators` on its own output —
the original columns now carrying coerced `timestamp`/`volume`/
`open_interest` and the derived columns present — succeeds and
reproduces exactly the same derived values for every row, in the same
order. -/
theorem claim_C9 (cfg : IndicatorConfig) (df : DataFrame)
    (out : List FeatureRow)
    (hok : addIndicators cfg df = Except.ok out) :
    ∃ out2, addIndicators cfg (outputFrame df out) = Except.ok out2 ∧
      out2.map derivedOf = out.map derivedOf := by
  have hval1 : (requiredCols.filter (fun c => ! df.cols.contains c)).isEmpty = true := by
    by_contra hval
    unfold addIndicators at hok
    rw [if_neg hval] at hok
    exact absurd hok (by simp)
  have hval2 : (requiredCols.filter
      (fun c => ! (df.cols ++ derivedColNames).contains c)).isEmpty = true := by
    rw [List.isEmpty_iff, List.filter_eq_nil_iff] at hval1 ⊢
    intro c hc
    have h1 := hval1 c hc
    simp only [Bool.not_eq_true', Bool.not_eq_false] at h1 ⊢
    rw [List.elem_iff] at h1 ⊢
    exact List.mem_append.mpr (Or.inl h1)
  have hrun2 : addIndicators cfg (outputFrame df out) = Except.ok
      (((tickersOf (stableSort rowLe (out.map rowOfFeature))).map
        (fun t => computeGroup cfg ((df.cols ++ derivedColNames).contains "volume")
          ((df.cols ++ derivedColNames).contains "open_interest")
          (groupRows (stableSort rowLe (out.map rowOfFeature)) t))).flatten) := by
    unfold addIndicators
    simp only [outputFrame]
    rw [if_pos hval2]
  have hrows2 : out.map rowOfFeature =
      ((tickersOf (stableSort rowLe df.rows)).map
        (fun t => (groupRows (stableSort rowLe df.rows) t).map
          (coerceRow (df.cols.contains "volume")
            (df.cols.contains "open_interest")))).flatten := by
    rw [addIndicators_ok_eq hok, List.map_flatten, List.map_map]
    congr 1
    refine List.map_congr_left fun t _ => ?_
    exact computeGroup_map_rowOfFeature _ _ _ _
  have hsorted1 : SortedB rowLe (stableSort rowLe df.rows) :=
    stableSort_sorted rowLe_total rowLe_trans _
  have hticklt := tickersOf_sorted_lt _ hsorted1
  have hsort2 : SortedB rowLe (out.map rowOfFeature) := by
    rw [hrows2]
    unfold SortedB
    refine List.pairwise_flatten.mpr ⟨?_, ?_⟩
    · intro l hl
      rcases List.mem_map.mp hl with ⟨t, ht, rfl⟩
      refine List.Pairwise.map _ ?_ (hsorted1.filter _)
      intro a b hab
      rw [rowLe_coerce]
      exact hab
    · refine List.Pairwise.map _ ?_ hticklt
      intro t t' hlt x hx y hy
      rcases List.mem_map.mp hx with ⟨r, hr, rfl⟩
      rcases List.mem_map.mp hy with ⟨s, hs, rfl⟩
      have hrt : r.ticker = some t := ticker_of_mem_groupRows hr
      have hst : s.ticker = some t' := ticker_of_mem_groupRows hs
      rw [rowLe_coerce]
      unfold rowLe
      rw [hrt, hst]
      simp [oLt, hlt]
  have hfix : stableSort rowLe (out.map rowOfFeature) = out.map rowOfFeature :=
    stableSort_of_sorted hsort2
  have hgrp_ne : ∀ t ∈ tickersOf (stableSort rowLe df.rows),
      (groupRows (stableSort rowLe df.rows) t).length ≠ 0 := by
    intro t ht h0
    rcases mem_tickersOf.mp ht with ⟨r, hr, hrt⟩
    have : r ∈ groupRows (stableSort rowLe df.rows) t :=
      List.mem_filter.mpr ⟨hr, by simp [hrt]⟩
    rw [List.length_eq_zero.mp h0] at this
    exact List.not_mem_nil r this
  have htick2 : tickersOf (out.map rowOfFeature) =
      tickersOf (stableSort rowLe df.rows) := by
    show ((out.map rowOfFeature).filterMap Row.ticker).dedup = _
    rw [hrows2, List.filterMap_flatten, List.map_map]
    have hmaps : (tickersOf (stableSort rowLe df.rows)).map
        ((List.filterMap Row.ticker) ∘ (fun t =>
          (groupRows (stableSort rowLe df.rows) t).map
            (coerceRow (df.cols.contains "volume")
              (df.cols.contains "open_interest")))) =
        (tickersOf (stableSort rowLe df.rows)).map
          (fun t => List.replicate (groupRows (stableSort rowLe df.rows) t).length t) := by
      refine List.map_congr_left fun t _ => ?_
      show ((groupRows (stableSort rowLe df.rows) t).map _).filterMap Row.ticker = _
      rw [List.filterMap_map]
      rw [show (groupRows (stableSort rowLe df.rows) t).length =
        (groupRows (stableSort rowLe df.rows) t).length from rfl]
      refine filterMap_const_some ?_
      intro r hr
      rw [Function.comp_apply, ticker_coerce]
      exact ticker_of_mem_groupRows hr
    rw [hmaps]
    exact dedup_flatten_replicate _ _ (by unfold tickersOf; exact List.nodup_dedup _)
      hgrp_ne
  have hgrp2 : ∀ t ∈ tickersOf (stableSort rowLe df.rows),
      groupRows (out.map rowOfFeature) t =
        (groupRows (stableSort rowLe df.rows) t).map
          (coerceRow (df.cols.contains "volume")
            (df.cols.contains "open_interest")) := by
    intro t ht
    rw [hrows2]
    show (_ : List Row).filter _ = _
    rw [filter_flatten_single (fun r => decide (r.ticker = some t)) t
      (fun t' => (groupRows (stableSort rowLe df.rows) t').map
        (coerceRow (df.cols.contains "volume")
          (df.cols.contains "open_interest")))
      (tickersOf (stableSort rowLe df.rows))
      (by unfold tickersOf; exact List.nodup_dedup _) ?hne2 ?hself2]
    case hne2 =>
      intro t' ht' htt'
      rw [List.filter_eq_nil_iff]
      intro r hr
      rcases List.mem_map.mp hr with ⟨r0, hr0, rfl⟩
      have := ticker_of_mem_groupRows hr0
      rw [ticker_coerce, this]
      simp [htt']
    case hself2 =>
      rw [List.filter_eq_self]
      intro r hr
      rcases List.mem_map.mp hr with ⟨r0, hr0, rfl⟩
      have := ticker_of_mem_groupRows hr0
      rw [ticker_coerce, this]
      simp
    rw [if_pos ht]
  have hvol2 : (df.cols ++ derivedColNames).contains "volume" = true := by
    simp [derivedColNames, List.mem_append]
  have hoi2 : (df.cols ++ derivedColNames).contains "open_interest" = true := by
    simp [derivedColNames, List.mem_append]
  refine ⟨_, hrun2, ?_⟩
  have hR : out.map derivedOf =
      ((tickersOf (stableSort rowLe df.rows)).map
        (fun t => (computeGroup cfg (df.cols.contains "volume")
          (df.cols.contains "open_interest")
          (groupRows (stableSort rowLe df.rows) t)).map derivedOf)).flatten := by
    rw [addIndicators_ok_eq hok, List.map_flatten, List.map_map]
    rfl
  rw [hfix, htick2, List.map_flatten, List.map_map, hR]
  congr 1
  refine List.map_congr_left fun t ht => ?_
  show (computeGroup cfg ((df.cols ++ derivedColNames).contains "volume")
    ((df.cols ++ derivedColNames).contains "open_interest")
    (groupRows (out.map rowOfFeature) t)).map derivedOf = _
  rw [hgrp2 t ht, hvol2, hoi2]
  exact computeGroup_coerce_derived cfg _ _ _

/-- Witness for C9: a concrete two-row frame for ticker "A"; the first
run succeeds (by evaluation) and the theorem yields a second successful
run on its output with identical derived values. -/
theorem claim_C9_witness :
    ∃ out2, addIndicators defaultConfig (outputFrame
      (mkFrame [mkRow (some "A") (some 1) (some 40) (some 60) (some 40) (some 60),
        mkRow (some "A") (some 2) (some 50) (some 70) (some 30) (some 50)])
      (runOk defaultConfig
        (mkFrame [mkRow (some "A") (some 1) (some 40) (some 60) (some 40) (some 60),
          mkRow (some "A") (some 2) (some 50) (some 70) (some 30) (some 50)]))) =
        Except.ok out2 ∧
      out2.map derivedOf =
        (runOk defaultConfig
          (mkFrame [mkRow (some "A") (some 1) (some 40) (some 60) (some 40) (some 60),
            mkRow (some "A") (some 2) (some 50) (some 70) (some 30) (some 50)])).map
          derivedOf :=
  claim_C9 defaultConfig
    (mkFrame [mkRow (some "A") (some 1) (some 40) (some 60) (some 40) (some 60),
      mkRow (some "A") (some 2) (some 50) (some 70) (some 30) (some 50)])
    (runOk defaultConfig
      (mkFrame [mkRow (some "A") (some 1) (some 40) (some 60) (some 40) (some 60),
        mkRow (some "A") (some 2) (some 50) (some 70) (some 30) (some 50)]))
    rfl

end Kalshi
